import Mathlib

/-! # chess-FEN-mcp: the FEN parser and board renderer of `src/index.js`

A shallow embedding of the methods `fenToAscii`, `parseFenString`, `parseBoard`,
`parseCastlingRights`, `isPiece`, `pieceToUnicode` and `renderBoard` of the class
`ChessFENServer`, followed by theorems about them.

Modelling conventions.

* A JavaScript string is a sequence of UTF-16 code units.  It is kept as the list of
  its code units, each a natural number (`JSString`).  `utf16` turns a Lean string
  literal into that list.
* `throw new Error(msg)` is `Except.error msg`: the error value is the message.
* A JavaScript number produced by `parseInt` is `NaN`, an infinity, or an integer
  with a sign (`JSNumber`); the magnitude is rounded to a double as ECMAScript asks.
* A board square is a string of one code unit (`" "` or the result of `charAt`);
  it is kept as that code unit.
-/

namespace ChessFEN

/-! ## Strings -/

deriving instance DecidableEq for Except

/-- A JavaScript string: its UTF-16 code units in order. -/
abbrev JSString := List Nat

/-- The UTF-16 code units of a string literal (a character above U+FFFF gives a
surrogate pair). -/
def utf16 (s : String) : JSString :=
  s.toList.flatMap fun c =>
    if c.toNat < 65536 then [c.toNat]
    else [55296 + (c.toNat - 65536) / 1024, 56320 + (c.toNat - 65536) % 1024]

/-- The code units removed by `String.prototype.trim` and skipped by `parseInt`:
ECMAScript WhiteSpace (TAB, VT, FF, SP, NBSP, ZWNBSP and the category Zs) and
LineTerminator (LF, CR, LS, PS). -/
def isWhiteSpace (c : Nat) : Bool :=
  c == 9 || c == 10 || c == 11 || c == 12 || c == 13 || c == 32 || c == 160 ||
  c == 5760 || (8192 ≤ c && c ≤ 8202) || c == 8232 || c == 8233 || c == 8239 ||
  c == 8287 || c == 12288 || c == 65279

/-- Embeds `String.prototype.trim`: white space is dropped at both ends. -/
def trim (s : JSString) : JSString :=
  ((s.dropWhile isWhiteSpace).reverse.dropWhile isWhiteSpace).reverse

/-- Embeds `String.prototype.split` for a separator of one code unit, which is how the
source calls it (`split(" ")`, `split("/")`): the pieces between the occurrences of
the separator, empty pieces included. -/
def split (sep : Nat) : JSString → List JSString
  | [] => [[]]
  | c :: cs =>
    if c = sep then [] :: split sep cs
    else
      match split sep cs with
      | [] => [[c]]
      | t :: ts => (c :: t) :: ts

/-- Is `needle` a prefix of `s`? -/
def startsWith : JSString → JSString → Bool
  | _, [] => true
  | [], _ :: _ => false
  | c :: cs, d :: ds => c == d && startsWith cs ds

/-- Embeds `String.prototype.includes`: `needle` occurs somewhere in `s`. -/
def includes : JSString → JSString → Bool
  | [], needle => startsWith [] needle
  | c :: cs, needle => startsWith (c :: cs) needle || includes cs needle

/-- The regular expression `/\d/` on a string of one code unit: an ASCII digit. -/
def isDigit (c : Nat) : Bool := 48 ≤ c && c ≤ 57

/-! ## Numbers -/

/-- The values `parseInt` can return: `NaN`, an infinity, or an integer with its sign
(`integer true 0` is `-0`). -/
inductive JSNumber where
  | nan
  | infinity (negative : Bool)
  | integer (negative : Bool) (magnitude : Nat)
  deriving DecidableEq, Repr

/-- Number of binary digits of `n` (`fuel` bounds the count). -/
def bitLength : Nat → Nat → Nat
  | 0, _ => 0
  | fuel + 1, n => if n = 0 then 0 else bitLength fuel (n / 2) + 1

/-- Rounds a natural number to the nearest double (ties to even): `none` when the result
overflows to `Infinity`. -/
def roundToDouble (n : Nat) : Option Nat :=
  let bits := bitLength n n
  if bits ≤ 53 then some n
  else
    let e := bits - 53
    let q := n / 2 ^ e
    let r := n % 2 ^ e
    let half := 2 ^ (e - 1)
    let q := if half < r || (r == half && q % 2 == 1) then q + 1 else q
    if 2 ^ 1024 ≤ q * 2 ^ e then none else some (q * 2 ^ e)

/-- The value of a string of ASCII digits in base 10. -/
def digitsValue (z : JSString) : Nat :=
  z.foldl (fun acc d => 10 * acc + (d - 48)) 0

/-- Embeds `parseInt(string, 10)`: leading white space is skipped, a sign is read, the
longest run of decimal digits is taken; no digit gives `NaN`.  The value is rounded to a
double (correctly rounded, as V8 does for every length of the digit run). -/
def parseInt (string : JSString) : JSNumber :=
  let s := string.dropWhile isWhiteSpace
  let negative := s.head? == some 45
  let s := if s.head? == some 45 || s.head? == some 43 then s.tail else s
  let z := s.takeWhile isDigit
  if z.isEmpty then JSNumber.nan
  else
    match roundToDouble (digitsValue z) with
    | none => JSNumber.infinity negative
    | some m => JSNumber.integer negative m

/-- Decimal digits of `n` as code units, most significant first (`fuel` bounds the
count). -/
def decimalDigits : Nat → Nat → JSString
  | 0, _ => []
  | fuel + 1, n =>
    if n < 10 then [48 + n] else decimalDigits fuel (n / 10) ++ [48 + n % 10]

/-- The decimal numeral of a natural number. -/
def natToString (n : Nat) : JSString := decimalDigits (n + 1) n

/-- For a positive integer-valued double `x`: the decimal with the fewest significant
digits that rounds to `x` (of two such, the nearer one), as Number::toString chooses
it.  Seventeen digits always suffice. -/
def shortestDecimal (x : Nat) : Nat :=
  let n := (natToString x).length
  let hit := (List.range 17).findSome? fun i =>
    let p := 10 ^ (n - (i + 1))
    let lo := x / p * p
    let hi := (x / p + 1) * p
    let okLo := roundToDouble lo == some x
    let okHi := roundToDouble hi == some x
    if okLo && okHi then
      (if x - lo < hi - x then some lo
       else if hi - x < x - lo then some hi
       else if x / p % 2 == 0 then some lo else some hi)
    else if okLo then some lo
    else if okHi then some hi
    else none
  hit.getD x

/-- Drops the zeros at the end of a digit string. -/
def stripZeros (ds : JSString) : JSString :=
  (ds.reverse.dropWhile (· == 48)).reverse

/-- Number::toString (radix 10) of a positive integer-valued double: the shortest decimal
written in full when it has at most 21 digits, in exponent form otherwise. -/
def magnitudeToString (m : Nat) : JSString :=
  let v := natToString (shortestDecimal m)
  if v.length ≤ 21 then v
  else
    let ds := stripZeros v
    let exp := utf16 "e+" ++ natToString (v.length - 1)
    match ds with
    | [] => v ++ exp
    | [d] => [d] ++ exp
    | d :: rest => [d] ++ utf16 "." ++ rest ++ exp

/-- Embeds the conversion of a number inside a template literal. -/
def numberToString : JSNumber → JSString
  | .nan => utf16 "NaN"
  | .infinity negative => (if negative then utf16 "-" else []) ++ utf16 "Infinity"
  | .integer negative m =>
    if m = 0 then utf16 "0"
    else (if negative then utf16 "-" else []) ++ magnitudeToString m

/-- Embeds the conversion of a boolean inside a template literal. -/
def boolToString (b : Bool) : JSString :=
  if b then utf16 "true" else utf16 "false"

/-! ## The parsed position -/

/-- The object `{ queenside, kingside }` of one colour. -/
structure CastlingSide where
  queenside : Bool
  kingside : Bool
  deriving DecidableEq, Repr

/-- The object returned by `parseCastlingRights`. -/
structure CastlingRights where
  white : CastlingSide
  black : CastlingSide
  deriving DecidableEq, Repr

/-- The object returned by `parseFenString`.  A board is a list of rows, a row a list of
squares, a square the code unit of its one-unit string. -/
structure ParsedFen where
  board : List (List Nat)
  toMove : JSString
  castlingRights : CastlingRights
  enPassantSquare : JSString
  halfMoves : JSNumber
  fullMoves : JSNumber
  deriving DecidableEq, Repr

/-! ## The parser -/

/-- Embeds `isPiece`: the regular expression `/^[pnbrqkPNBRQK]$/` on one code unit. -/
def isPiece (char : Nat) : Bool :=
  (utf16 "pnbrqkPNBRQK").contains char

/-- The inner loop of `parseBoard`: the characters of one row are read from left to
right and squares are pushed onto `squares`. -/
def scanRow : JSString → List Nat → Except JSString (List Nat)
  | [], squares => .ok squares
  | char :: rest, squares =>
    if isDigit char then
      match parseInt [char] with
      | .integer false emptySquares =>
        scanRow rest (squares ++ List.replicate emptySquares 32)
      | _ => scanRow rest squares
    else if isPiece char then scanRow rest (squares ++ [char])
    else .error (utf16 "Invalid character in board: " ++ [char])

/-- The callback `parseBoard` maps over the rows. -/
def parseRow (row : JSString) : Except JSString (List Nat) :=
  match scanRow row [] with
  | .error e => .error e
  | .ok squares =>
    if squares.length ≠ 8 then .error (utf16 "Each row must have exactly 8 squares")
    else .ok squares

/-- The call `rows.map(...)` of `parseBoard`: rows are handled in order and the first
exception ends the map. -/
def parseRows : List JSString → Except JSString (List (List Nat))
  | [] => .ok []
  | row :: rest =>
    match parseRow row with
    | .error e => .error e
    | .ok squares =>
      match parseRows rest with
      | .error e => .error e
      | .ok more => .ok (squares :: more)

/-- Embeds `parseBoard`. -/
def parseBoard (boardString : JSString) : Except JSString (List (List Nat)) :=
  let rows := split 47 boardString
  if rows.length ≠ 8 then .error (utf16 "Board must have exactly 8 rows")
  else parseRows rows

/-- Embeds `parseCastlingRights`. -/
def parseCastlingRights (castlingString : JSString) : CastlingRights :=
  { white :=
      { queenside := includes castlingString (utf16 "Q")
        kingside := includes castlingString (utf16 "K") }
    black :=
      { queenside := includes castlingString (utf16 "q")
        kingside := includes castlingString (utf16 "k") } }

/-- Embeds `parseFenString`.  The six tokens exist once the length check has passed;
`getD` reads them. -/
def parseFenString (fen : JSString) : Except JSString ParsedFen :=
  let fenTokens := split 32 (trim fen)
  if fenTokens.length ≠ 6 then .error (utf16 "FEN must have exactly 6 fields")
  else
    match parseBoard (fenTokens.getD 0 []) with
    | .error e => .error e
    | .ok board =>
      .ok
        { board := board
          toMove := if fenTokens.getD 1 [] = utf16 "w" then utf16 "white" else utf16 "black"
          castlingRights := parseCastlingRights (fenTokens.getD 2 [])
          enPassantSquare := fenTokens.getD 3 []
          halfMoves := parseInt (fenTokens.getD 4 [])
          fullMoves := parseInt (fenTokens.getD 5 []) }

/-! ## The renderer -/

/-- The table `pieceMap` of `pieceToUnicode`. -/
def pieceMap : List (Nat × JSString) :=
  [ (80, utf16 "♙"), (78, utf16 "♘"), (66, utf16 "♗"), (82, utf16 "♖"),
    (81, utf16 "♕"), (75, utf16 "♔"),
    (112, utf16 "♟"), (110, utf16 "♞"), (98, utf16 "♝"), (114, utf16 "♜"),
    (113, utf16 "♛"), (107, utf16 "♚") ]

/-- Embeds `pieceToUnicode` on a key of one code unit: `pieceMap[piece] || "."`. -/
def pieceToUnicode (piece : Nat) : JSString :=
  match pieceMap.lookup piece with
  | some glyph => glyph
  | none => utf16 "."

/-- The text shown for `board[row][col]`; a column missing from the row reads as
`undefined`, which is not `" "` and is no key of `pieceMap`. -/
def display : Option Nat → JSString
  | none => utf16 "."
  | some piece => if piece = 32 then utf16 "." else pieceToUnicode piece

/-- The inner loop of `renderBoard` over `col = 0..7`. -/
def renderSquares (rank : List Nat) (result : JSString) : JSString :=
  (List.range 8).foldl (fun result col => result ++ display (rank.get? col) ++ utf16 " ")
    result

/-- The message of the TypeError V8 raises when `board[row]` is `undefined`. -/
def missingRowMessage : JSString :=
  utf16 "Cannot read properties of undefined (reading '0')"

/-- One turn of the outer loop of `renderBoard`. -/
def renderRank (board : List (List Nat)) (result : JSString) (row : Nat) :
    Except JSString JSString :=
  let rankNumber := JSNumber.integer false (8 - row)
  let result := result ++ numberToString rankNumber ++ utf16 " "
  match board.get? row with
  | none => .error missingRowMessage
  | some rank => .ok (renderSquares rank result ++ numberToString rankNumber ++ utf16 "\n")

/-- Embeds `renderBoard`. -/
def renderBoard (parsedFen : ParsedFen) : Except JSString JSString :=
  let result := utf16 "Fen \x7b\n"
  let result := result ++ utf16 "  rows: 8,\n"
  let result := result ++ utf16 "  columns: 8,\n"
  let result := result ++ utf16 "  board: [\n"
  let result := result ++ utf16 "  a b c d e f g h\n"
  match (List.range 8).foldlM (renderRank parsedFen.board) result with
  | .error e => .error e
  | .ok result =>
    let result := result ++ utf16 "  a b c d e f g h\n"
    let result := result ++ utf16 "  ],\n"
    let result := result ++ utf16 "  toMove: '" ++ parsedFen.toMove ++ utf16 "',\n"
    let result := result ++ utf16 "  castlingRights: \x7b\n"
    let result := result ++ utf16 "    white: \x7b queenside: " ++
      boolToString parsedFen.castlingRights.white.queenside ++ utf16 ", kingside: " ++
      boolToString parsedFen.castlingRights.white.kingside ++ utf16 " \x7d,\n"
    let result := result ++ utf16 "    black: \x7b queenside: " ++
      boolToString parsedFen.castlingRights.black.queenside ++ utf16 ", kingside: " ++
      boolToString parsedFen.castlingRights.black.kingside ++ utf16 " \x7d\n"
    let result := result ++ utf16 "  \x7d,\n"
    let result := result ++ utf16 "  enPassantSquare: '" ++ parsedFen.enPassantSquare ++
      utf16 "',\n"
    let result := result ++ utf16 "  halfMoves: " ++ numberToString parsedFen.halfMoves ++
      utf16 ",\n"
    let result := result ++ utf16 "  fullMoves: " ++ numberToString parsedFen.fullMoves ++
      utf16 "\n"
    let result := result ++ utf16 "\x7d"
    .ok result

/-- Embeds `fenToAscii`: an exception of the parser or the renderer is thrown again with
the prefix `Invalid FEN: `. -/
def fenToAscii (fen : JSString) : Except JSString JSString :=
  match parseFenString fen >>= renderBoard with
  | .ok visualization => .ok visualization
  | .error message => .error (utf16 "Invalid FEN: " ++ message)

/-! ## Specification-side definitions

These follow the wording of the specification and are compared with the code above. -/

/-- The squares one character of a rank string stands for, in the words of the
specification: a digit `d` is `d` empty squares, a piece letter is itself. -/
def expandSpec (c : Nat) : List Nat :=
  if 48 ≤ c ∧ c ≤ 57 then List.replicate (c - 48) 32
  else if c ∈ utf16 "pnbrqkPNBRQK" then [c]
  else []

/-- A character of the rank alphabet: an ASCII digit 0-9 or one of the 12 piece letters. -/
def validChar (c : Nat) : Prop := (48 ≤ c ∧ c ≤ 57) ∨ c ∈ utf16 "pnbrqkPNBRQK"

instance (c : Nat) : Decidable (validChar c) := by unfold validChar; infer_instance

/-- A well-formed rank string: characters of the rank alphabet only, expanding to exactly
eight squares. -/
def goodRow (row : JSString) : Prop :=
  (∀ c ∈ row, validChar c) ∧ (row.flatMap expandSpec).length = 8

instance (row : JSString) : Decidable (goodRow row) := by unfold goodRow; infer_instance

/-- A structurally valid board in the words of the specification: 8 ranks of 8 squares,
each the empty value " " or one of the 12 piece letters. -/
def validBoard (board : List (List Nat)) : Prop :=
  board.length = 8 ∧
    ∀ rank ∈ board, rank.length = 8 ∧
      ∀ sq ∈ rank, [sq] = utf16 " " ∨ sq ∈ utf16 "pnbrqkPNBRQK"

instance (board : List (List Nat)) : Decidable (validBoard board) := by
  unfold validBoard; infer_instance

/-- What the specification shows for a square: "." for the empty square, the glyph of the
fixed table for a piece, the placeholder for anything else. -/
def displaySpec (sq : Nat) : JSString :=
  if [sq] = utf16 " " then utf16 "."
  else if [sq] = utf16 "P" then utf16 "♙"
  else if [sq] = utf16 "N" then utf16 "♘"
  else if [sq] = utf16 "B" then utf16 "♗"
  else if [sq] = utf16 "R" then utf16 "♖"
  else if [sq] = utf16 "Q" then utf16 "♕"
  else if [sq] = utf16 "K" then utf16 "♔"
  else if [sq] = utf16 "p" then utf16 "♟"
  else if [sq] = utf16 "n" then utf16 "♞"
  else if [sq] = utf16 "b" then utf16 "♝"
  else if [sq] = utf16 "r" then utf16 "♜"
  else if [sq] = utf16 "q" then utf16 "♛"
  else if [sq] = utf16 "k" then utf16 "♚"
  else utf16 "."

/-- The grid line of board rank `i` in the words of the specification: the label `8 - i`
(one digit), a space, for the columns 0 to 7 the display of the square and a space, the
label again, and the end of the line. -/
def gridLineSpec (board : List (List Nat)) (i : Nat) : JSString :=
  [48 + (8 - i)] ++ utf16 " " ++
    (List.range 8).flatMap (fun col => displaySpec ((board.getD i []).getD col 32) ++
      utf16 " ") ++
    [48 + (8 - i)] ++ utf16 "\n"

/-- The grid in the words of the specification: the header line, the 8 lines in board
order, the header line again. -/
def gridSpec (board : List (List Nat)) : JSString :=
  utf16 "  a b c d e f g h\n" ++ (List.range 8).flatMap (gridLineSpec board) ++
    utf16 "  a b c d e f g h\n"

/-- The pieces of a string between the code units that satisfy `p`, empty pieces
included. -/
def splitWhere (p : Nat → Bool) : JSString → List JSString
  | [] => [[]]
  | c :: cs =>
    if p c then [] :: splitWhere p cs
    else
      match splitWhere p cs with
      | [] => [[c]]
      | t :: ts => (c :: t) :: ts

/-- The white-space-separated fields of a string, in the words of the specification: the
maximal runs of code units that are not white space. -/
def whitespaceFields (s : JSString) : List JSString :=
  (splitWhere isWhiteSpace s).filter fun t => !t.isEmpty

/-- The base-10 value of a string of ASCII digits, most significant digit first. -/
def decimalValueSpec (z : JSString) : Nat :=
  Nat.ofDigits 10 (z.reverse.map fun d => d - 48)

/-- A string of ASCII decimal digits that is not empty. -/
def isDigitString (z : JSString) : Prop :=
  z ≠ [] ∧ ∀ c ∈ z, 48 ≤ c ∧ c ≤ 57

instance (z : JSString) : Decidable (isDigitString z) := by
  unfold isDigitString; infer_instance

/-- A number that is a non-negative integer. -/
def isNonNegativeInteger : JSNumber → Prop
  | .integer negative n => negative = false ∨ n = 0
  | _ => False

/-- A number that is a positive integer. -/
def isPositiveInteger : JSNumber → Prop
  | .integer negative n => negative = false ∧ 0 < n
  | _ => False

instance (x : JSNumber) : Decidable (isNonNegativeInteger x) := by
  cases x <;> unfold isNonNegativeInteger <;> infer_instance

instance (x : JSNumber) : Decidable (isPositiveInteger x) := by
  cases x <;> unfold isPositiveInteger <;> infer_instance

/-- The longest run of ASCII decimal digits a string begins with. -/
def leadingDigits (z : JSString) : JSString :=
  z.takeWhile fun c => decide (48 ≤ c ∧ c ≤ 57)

/-- The width of a rank string in the words of the specification: the sum of the values of
its digits plus the number of its piece letters. -/
def rankWidthSpec (row : JSString) : Nat :=
  ((row.filter fun c => decide (48 ≤ c ∧ c ≤ 57)).map fun c => c - 48).sum +
    (row.filter fun c => decide (c ∈ utf16 "pnbrqkPNBRQK")).length

/-- The decimal numeral of a natural number, as code units: its base-10 digits, most
significant first, and "0" for zero. -/
def decimalNumeralSpec (n : Nat) : JSString :=
  if n = 0 then utf16 "0" else (Nat.digits 10 n).reverse.map fun d => 48 + d

/-! ## Auxiliary definitions for the proofs -/

/-- The text one turn of the outer loop of `renderBoard` adds for a row that exists. -/
def lineOf (rank : List Nat) (row : Nat) : JSString :=
  numberToString (JSNumber.integer false (8 - row)) ++ utf16 " " ++
    (List.range 8).flatMap (fun col => display (rank.get? col) ++ utf16 " ") ++
    numberToString (JSNumber.integer false (8 - row)) ++ utf16 "\n"

/-- The text `renderBoard` puts after the grid. -/
def metadataOf (parsedFen : ParsedFen) : JSString :=
  utf16 "  toMove: '" ++ parsedFen.toMove ++ utf16 "',\n" ++
  utf16 "  castlingRights: \x7b\n" ++
  utf16 "    white: \x7b queenside: " ++
    boolToString parsedFen.castlingRights.white.queenside ++ utf16 ", kingside: " ++
    boolToString parsedFen.castlingRights.white.kingside ++ utf16 " \x7d,\n" ++
  utf16 "    black: \x7b queenside: " ++
    boolToString parsedFen.castlingRights.black.queenside ++ utf16 ", kingside: " ++
    boolToString parsedFen.castlingRights.black.kingside ++ utf16 " \x7d\n" ++
  utf16 "  \x7d,\n" ++
  utf16 "  enPassantSquare: '" ++ parsedFen.enPassantSquare ++ utf16 "',\n" ++
  utf16 "  halfMoves: " ++ numberToString parsedFen.halfMoves ++ utf16 ",\n" ++
  utf16 "  fullMoves: " ++ numberToString parsedFen.fullMoves ++ utf16 "\n" ++
  utf16 "\x7d"

/-- The result of `parseInt` on a string that begins with a digit. -/
def parseIntOfRun (string : JSString) : JSNumber :=
  match roundToDouble (digitsValue (string.takeWhile isDigit)) with
  | none => JSNumber.infinity false
  | some m => JSNumber.integer false m

/-- One turn of the search of `shortestDecimal`: the candidates with `i + 1` significant
digits for a number `x` of `n` digits. -/
def shortestStep (x n i : Nat) : Option Nat :=
  let p := 10 ^ (n - (i + 1))
  let lo := x / p * p
  let hi := (x / p + 1) * p
  let okLo := roundToDouble lo == some x
  let okHi := roundToDouble hi == some x
  if okLo && okHi then
    (if x - lo < hi - x then some lo
     else if hi - x < x - lo then some hi
     else if x / p % 2 == 0 then some lo else some hi)
  else if okLo then some lo
  else if okHi then some hi
  else none

/-! ## Lemmas on the alphabet -/

theorem isDigit_iff (c : Nat) : isDigit c = true ↔ 48 ≤ c ∧ c ≤ 57 := by
  simp [isDigit]

theorem isPiece_iff (c : Nat) : isPiece c = true ↔ c ∈ utf16 "pnbrqkPNBRQK" := by
  unfold isPiece
  exact List.elem_iff

theorem validChar_iff (c : Nat) : validChar c ↔ isDigit c = true ∨ isPiece c = true := by
  rw [isDigit_iff, isPiece_iff]
  rfl

theorem not_validChar (c : Nat) (h : ¬ validChar c) :
    isDigit c = false ∧ isPiece c = false := by
  rw [validChar_iff] at h
  constructor
  · cases hd : isDigit c
    · rfl
    · exact absurd (Or.inl hd) h
  · cases hp : isPiece c
    · rfl
    · exact absurd (Or.inr hp) h

theorem expandSpec_digit (c : Nat) (hd : isDigit c = true) :
    expandSpec c = List.replicate (c - 48) 32 := by
  unfold expandSpec
  rw [if_pos ((isDigit_iff c).mp hd)]

theorem expandSpec_piece (c : Nat) (hd : ¬ isDigit c = true) (hp : isPiece c = true) :
    expandSpec c = [c] := by
  unfold expandSpec
  rw [if_neg (fun h => hd ((isDigit_iff c).mpr h)), if_pos ((isPiece_iff c).mp hp)]

theorem mem_expandSpec (sq c : Nat) (h : sq ∈ expandSpec c) :
    [sq] = utf16 " " ∨ sq ∈ utf16 "pnbrqkPNBRQK" := by
  unfold expandSpec at h
  split_ifs at h with hd hp
  · left
    rw [List.eq_of_mem_replicate h]
    rfl
  · right
    rw [List.mem_singleton] at h
    subst h
    exact hp
  · cases h

/-! ## Lemmas on the row scanner -/

theorem parseInt_digit (c : Nat) (h : isDigit c = true) :
    parseInt [c] = JSNumber.integer false (c - 48) := by
  simp only [isDigit, Bool.and_eq_true, decide_eq_true_eq] at h
  obtain ⟨h1, h2⟩ := h
  interval_cases c <;> decide

theorem scanRow_nil (squares : List Nat) : scanRow [] squares = .ok squares := rfl

theorem scanRow_cons (char : Nat) (rest : JSString) (squares : List Nat) :
    scanRow (char :: rest) squares =
      if isDigit char then
        match parseInt [char] with
        | .integer false emptySquares =>
          scanRow rest (squares ++ List.replicate emptySquares 32)
        | _ => scanRow rest squares
      else if isPiece char then scanRow rest (squares ++ [char])
      else .error (utf16 "Invalid character in board: " ++ [char]) := rfl

theorem scanRow_digit (c : Nat) (rest : JSString) (squares : List Nat)
    (hd : isDigit c = true) :
    scanRow (c :: rest) squares = scanRow rest (squares ++ List.replicate (c - 48) 32) := by
  rw [scanRow_cons, if_pos hd, parseInt_digit c hd]

theorem scanRow_piece (c : Nat) (rest : JSString) (squares : List Nat)
    (hd : ¬ isDigit c = true) (hp : isPiece c = true) :
    scanRow (c :: rest) squares = scanRow rest (squares ++ [c]) := by
  rw [scanRow_cons, if_neg hd, if_pos hp]

theorem scanRow_valid (row : JSString) (squares : List Nat)
    (h : ∀ c ∈ row, validChar c) :
    scanRow row squares = .ok (squares ++ row.flatMap expandSpec) := by
  induction row generalizing squares with
  | nil => rw [scanRow_nil]; simp
  | cons c rest ih =>
    have hrest : ∀ x ∈ rest, validChar x := fun x hx => h x (List.mem_cons_of_mem _ hx)
    by_cases hd : isDigit c = true
    · rw [scanRow_digit c rest squares hd, ih _ hrest, List.flatMap_cons,
        expandSpec_digit c hd, List.append_assoc]
    · have hp : isPiece c = true := by
        rcases (validChar_iff c).mp (h c (List.mem_cons_self _ _)) with h1 | h1
        · exact absurd h1 hd
        · exact h1
      rw [scanRow_piece c rest squares hd hp, ih _ hrest, List.flatMap_cons,
        expandSpec_piece c hd hp, List.append_assoc]

theorem scanRow_invalid (a b : JSString) (c : Nat) (squares : List Nat)
    (ha : ∀ x ∈ a, validChar x) (hd : isDigit c = false) (hp : isPiece c = false) :
    scanRow (a ++ c :: b) squares = .error (utf16 "Invalid character in board: " ++ [c]) := by
  induction a generalizing squares with
  | nil =>
    rw [List.nil_append, scanRow_cons, if_neg (by simp [hd]), if_neg (by simp [hp])]
  | cons x rest ih =>
    have hrest : ∀ y ∈ rest, validChar y := fun y hy => ha y (List.mem_cons_of_mem _ hy)
    by_cases hxd : isDigit x = true
    · rw [List.cons_append, scanRow_digit x _ squares hxd, ih _ hrest]
    · have hxp : isPiece x = true := by
        rcases (validChar_iff x).mp (ha x (List.mem_cons_self _ _)) with h1 | h1
        · exact absurd h1 hxd
        · exact h1
      rw [List.cons_append, scanRow_piece x _ squares hxd hxp, ih _ hrest]

/-- Every row either consists of accepted characters or has a first rejected one. -/
theorem row_valid_or_first_invalid (row : JSString) :
    (∀ c ∈ row, validChar c) ∨
    ∃ a c b, row = a ++ c :: b ∧ (∀ x ∈ a, validChar x) ∧
      isDigit c = false ∧ isPiece c = false := by
  induction row with
  | nil => left; simp
  | cons x rest ih =>
    by_cases hx : validChar x
    · rcases ih with h | ⟨a, c, b, hrow, ha, hd, hp⟩
      · left
        intro c hc
        rcases List.mem_cons.mp hc with rfl | hc
        · exact hx
        · exact h c hc
      · right
        refine ⟨x :: a, c, b, by simp [hrow], ?_, hd, hp⟩
        intro y hy
        rcases List.mem_cons.mp hy with rfl | hy
        · exact hx
        · exact ha y hy
    · exact Or.inr ⟨[], x, rest, rfl, by simp, not_validChar x hx⟩

theorem scanRow_ok_iff (row : JSString) (squares out : List Nat) :
    scanRow row squares = .ok out ↔
      (∀ c ∈ row, validChar c) ∧ out = squares ++ row.flatMap expandSpec := by
  constructor
  · intro h
    rcases row_valid_or_first_invalid row with hv | ⟨a, c, b, hrow, ha, hd, hp⟩
    · rw [scanRow_valid row squares hv] at h
      exact ⟨hv, by injection h with h; exact h.symm⟩
    · rw [hrow, scanRow_invalid a b c squares ha hd hp] at h
      cases h
  · rintro ⟨hv, rfl⟩
    exact scanRow_valid row squares hv

theorem scanRow_error (row : JSString) (squares : List Nat) (e : JSString)
    (h : scanRow row squares = .error e) :
    ∃ c, e = utf16 "Invalid character in board: " ++ [c] := by
  rcases row_valid_or_first_invalid row with hv | ⟨a, c, b, hrow, ha, hd, hp⟩
  · rw [scanRow_valid row squares hv] at h
    cases h
  · rw [hrow, scanRow_invalid a b c squares ha hd hp] at h
    injection h with h
    exact ⟨c, h.symm⟩

/-! ## Lemmas on rows and boards -/

theorem parseRow_eq (row : JSString) :
    parseRow row =
      match scanRow row [] with
      | .error e => .error e
      | .ok squares =>
        if squares.length ≠ 8 then .error (utf16 "Each row must have exactly 8 squares")
        else .ok squares := rfl

theorem parseRow_valid (row : JSString) (hv : ∀ c ∈ row, validChar c)
    (hlen : (row.flatMap expandSpec).length = 8) :
    parseRow row = .ok (row.flatMap expandSpec) := by
  rw [parseRow_eq, scanRow_valid row [] hv]
  simp only [List.nil_append]
  rw [if_neg (by simp [hlen])]

theorem parseRow_width (row : JSString) (hv : ∀ c ∈ row, validChar c)
    (hlen : (row.flatMap expandSpec).length ≠ 8) :
    parseRow row = .error (utf16 "Each row must have exactly 8 squares") := by
  rw [parseRow_eq, scanRow_valid row [] hv]
  simp only [List.nil_append]
  rw [if_pos hlen]

theorem parseRow_invalid (a b : JSString) (c : Nat)
    (ha : ∀ x ∈ a, validChar x) (hd : isDigit c = false) (hp : isPiece c = false) :
    parseRow (a ++ c :: b) = .error (utf16 "Invalid character in board: " ++ [c]) := by
  rw [parseRow_eq, scanRow_invalid a b c [] ha hd hp]

theorem parseRow_ok_iff (row : JSString) (squares : List Nat) :
    parseRow row = .ok squares ↔
      (∀ c ∈ row, validChar c) ∧ (row.flatMap expandSpec).length = 8 ∧
        squares = row.flatMap expandSpec := by
  constructor
  · intro h
    rcases row_valid_or_first_invalid row with hv | ⟨a, c, b, hrow, ha, hd, hp⟩
    · by_cases hlen : (row.flatMap expandSpec).length = 8
      · rw [parseRow_valid row hv hlen] at h
        injection h with h
        exact ⟨hv, hlen, h.symm⟩
      · rw [parseRow_width row hv hlen] at h
        cases h
    · rw [hrow, parseRow_invalid a b c ha hd hp] at h
      cases h
  · rintro ⟨hv, hlen, rfl⟩
    exact parseRow_valid row hv hlen

theorem parseRow_error (row e : JSString) (h : parseRow row = .error e) :
    e = utf16 "Each row must have exactly 8 squares" ∨
      ∃ c, e = utf16 "Invalid character in board: " ++ [c] := by
  rcases row_valid_or_first_invalid row with hv | ⟨a, c, b, hrow, ha, hd, hp⟩
  · by_cases hlen : (row.flatMap expandSpec).length = 8
    · rw [parseRow_valid row hv hlen] at h
      cases h
    · rw [parseRow_width row hv hlen] at h
      injection h with h
      exact Or.inl h.symm
  · rw [hrow, parseRow_invalid a b c ha hd hp] at h
    injection h with h
    exact Or.inr ⟨c, h.symm⟩

theorem parseRows_nil : parseRows [] = .ok [] := rfl

theorem parseRows_cons (row : JSString) (rest : List JSString) :
    parseRows (row :: rest) =
      match parseRow row with
      | .error e => .error e
      | .ok squares =>
        match parseRows rest with
        | .error e => .error e
        | .ok more => .ok (squares :: more) := rfl

theorem parseRows_good (rows : List JSString) (h : ∀ row ∈ rows, goodRow row) :
    parseRows rows = .ok (rows.map fun row => row.flatMap expandSpec) := by
  induction rows with
  | nil => rfl
  | cons row rest ih =>
    have hrow := h row (List.mem_cons_self _ _)
    have hrest : ∀ r ∈ rest, goodRow r := fun r hr => h r (List.mem_cons_of_mem _ hr)
    rw [parseRows_cons, parseRow_valid row hrow.1 hrow.2, ih hrest]
    rfl

/-- The first row that is not accepted decides the error of the map. -/
theorem parseRows_first_bad (pre post : List JSString) (row e : JSString)
    (hpre : ∀ r ∈ pre, goodRow r) (hrow : parseRow row = .error e) :
    parseRows (pre ++ row :: post) = .error e := by
  induction pre with
  | nil => rw [List.nil_append, parseRows_cons, hrow]
  | cons r rest ih =>
    have hr := hpre r (List.mem_cons_self _ _)
    have hrest : ∀ x ∈ rest, goodRow x := fun x hx => hpre x (List.mem_cons_of_mem _ hx)
    rw [List.cons_append, parseRows_cons, parseRow_valid r hr.1 hr.2, ih hrest]

theorem rows_good_or_first_bad (rows : List JSString) :
    (∀ row ∈ rows, goodRow row) ∨
    ∃ pre row post, rows = pre ++ row :: post ∧ (∀ r ∈ pre, goodRow r) ∧ ¬ goodRow row := by
  induction rows with
  | nil => left; simp
  | cons x rest ih =>
    by_cases hx : goodRow x
    · rcases ih with h | ⟨pre, row, post, hrows, hpre, hbad⟩
      · left
        intro r hr
        rcases List.mem_cons.mp hr with rfl | hr
        · exact hx
        · exact h r hr
      · right
        refine ⟨x :: pre, row, post, by simp [hrows], ?_, hbad⟩
        intro r hr
        rcases List.mem_cons.mp hr with rfl | hr
        · exact hx
        · exact hpre r hr
    · exact Or.inr ⟨[], x, rest, rfl, by simp, hx⟩

theorem parseRow_bad (row : JSString) (h : ¬ goodRow row) :
    ∃ e, parseRow row = .error e := by
  cases hr : parseRow row with
  | error e => exact ⟨e, rfl⟩
  | ok squares =>
    have := (parseRow_ok_iff row squares).mp hr
    exact absurd ⟨this.1, this.2.1⟩ h

theorem parseRows_ok_iff (rows : List JSString) (board : List (List Nat)) :
    parseRows rows = .ok board ↔
      (∀ row ∈ rows, goodRow row) ∧ board = rows.map fun row => row.flatMap expandSpec := by
  constructor
  · intro h
    rcases rows_good_or_first_bad rows with hg | ⟨pre, row, post, hrows, hpre, hbad⟩
    · rw [parseRows_good rows hg] at h
      injection h with h
      exact ⟨hg, h.symm⟩
    · obtain ⟨e, he⟩ := parseRow_bad row hbad
      rw [hrows, parseRows_first_bad pre post row e hpre he] at h
      cases h
  · rintro ⟨hg, rfl⟩
    exact parseRows_good rows hg

theorem parseRows_error (rows : List JSString) (e : JSString)
    (h : parseRows rows = .error e) :
    e = utf16 "Each row must have exactly 8 squares" ∨
      ∃ c, e = utf16 "Invalid character in board: " ++ [c] := by
  rcases rows_good_or_first_bad rows with hg | ⟨pre, row, post, hrows, hpre, hbad⟩
  · rw [parseRows_good rows hg] at h
    cases h
  · obtain ⟨e', he⟩ := parseRow_bad row hbad
    rw [hrows, parseRows_first_bad pre post row e' hpre he] at h
    injection h with h
    subst h
    exact parseRow_error row e' he

theorem parseBoard_eq (boardString : JSString) :
    parseBoard boardString =
      if (split 47 boardString).length ≠ 8 then
        .error (utf16 "Board must have exactly 8 rows")
      else parseRows (split 47 boardString) := rfl

theorem parseBoard_of_eight (boardString : JSString)
    (h : (split 47 boardString).length = 8) :
    parseBoard boardString = parseRows (split 47 boardString) := by
  rw [parseBoard_eq, if_neg (by simp [h])]

theorem parseBoard_not_eight (boardString : JSString)
    (h : (split 47 boardString).length ≠ 8) :
    parseBoard boardString = .error (utf16 "Board must have exactly 8 rows") := by
  rw [parseBoard_eq, if_pos h]

theorem parseBoard_ok_iff (boardString : JSString) (board : List (List Nat)) :
    parseBoard boardString = .ok board ↔
      (split 47 boardString).length = 8 ∧ (∀ row ∈ split 47 boardString, goodRow row) ∧
        board = (split 47 boardString).map fun row => row.flatMap expandSpec := by
  by_cases h : (split 47 boardString).length = 8
  · rw [parseBoard_of_eight _ h, parseRows_ok_iff]
    simp [h]
  · rw [parseBoard_not_eight _ h]
    simp [h]

theorem parseBoard_error (boardString e : JSString)
    (h : parseBoard boardString = .error e) :
    e = utf16 "Board must have exactly 8 rows" ∨
    e = utf16 "Each row must have exactly 8 squares" ∨
      ∃ c, e = utf16 "Invalid character in board: " ++ [c] := by
  by_cases h8 : (split 47 boardString).length = 8
  · rw [parseBoard_of_eight _ h8] at h
    exact Or.inr (parseRows_error _ e h)
  · rw [parseBoard_not_eight _ h8] at h
    injection h with h
    exact Or.inl h.symm

theorem parseFenString_eq (fen : JSString) :
    parseFenString fen =
      if (split 32 (trim fen)).length ≠ 6 then
        .error (utf16 "FEN must have exactly 6 fields")
      else
        match parseBoard ((split 32 (trim fen)).getD 0 []) with
        | .error e => .error e
        | .ok board =>
          .ok
            { board := board
              toMove :=
                if (split 32 (trim fen)).getD 1 [] = utf16 "w" then utf16 "white"
                else utf16 "black"
              castlingRights := parseCastlingRights ((split 32 (trim fen)).getD 2 [])
              enPassantSquare := (split 32 (trim fen)).getD 3 []
              halfMoves := parseInt ((split 32 (trim fen)).getD 4 [])
              fullMoves := parseInt ((split 32 (trim fen)).getD 5 []) } := rfl

theorem parseFenString_not_six (fen : JSString) (h : (split 32 (trim fen)).length ≠ 6) :
    parseFenString fen = .error (utf16 "FEN must have exactly 6 fields") := by
  rw [parseFenString_eq, if_pos h]

theorem parseFenString_board_error (fen e : JSString)
    (h : (split 32 (trim fen)).length = 6)
    (hb : parseBoard ((split 32 (trim fen)).getD 0 []) = .error e) :
    parseFenString fen = .error e := by
  rw [parseFenString_eq, if_neg (by simp [h]), hb]

theorem parseFenString_board_ok (fen : JSString) (board : List (List Nat))
    (h : (split 32 (trim fen)).length = 6)
    (hb : parseBoard ((split 32 (trim fen)).getD 0 []) = .ok board) :
    parseFenString fen =
      .ok
        { board := board
          toMove :=
            if (split 32 (trim fen)).getD 1 [] = utf16 "w" then utf16 "white"
            else utf16 "black"
          castlingRights := parseCastlingRights ((split 32 (trim fen)).getD 2 [])
          enPassantSquare := (split 32 (trim fen)).getD 3 []
          halfMoves := parseInt ((split 32 (trim fen)).getD 4 [])
          fullMoves := parseInt ((split 32 (trim fen)).getD 5 []) } := by
  rw [parseFenString_eq, if_neg (by simp [h]), hb]

/-- A successful parse had six tokens and a board the board parser accepted. -/
theorem parseFenString_ok_inv (fen : JSString) (p : ParsedFen)
    (h : parseFenString fen = .ok p) :
    (split 32 (trim fen)).length = 6 ∧
      parseBoard ((split 32 (trim fen)).getD 0 []) = .ok p.board ∧
      p.toMove =
        (if (split 32 (trim fen)).getD 1 [] = utf16 "w" then utf16 "white"
         else utf16 "black") ∧
      p.castlingRights = parseCastlingRights ((split 32 (trim fen)).getD 2 []) ∧
      p.enPassantSquare = (split 32 (trim fen)).getD 3 [] ∧
      p.halfMoves = parseInt ((split 32 (trim fen)).getD 4 []) ∧
      p.fullMoves = parseInt ((split 32 (trim fen)).getD 5 []) := by
  by_cases h6 : (split 32 (trim fen)).length = 6
  · cases hb : parseBoard ((split 32 (trim fen)).getD 0 []) with
    | error e =>
      rw [parseFenString_board_error fen e h6 hb] at h
      cases h
    | ok board =>
      rw [parseFenString_board_ok fen board h6 hb] at h
      injection h with h
      subst h
      exact ⟨h6, rfl, rfl, rfl, rfl, rfl, rfl⟩
  · rw [parseFenString_not_six fen h6] at h
    cases h

/-! ## Lemmas on `includes` -/

theorem includes_singleton (s : JSString) (k : Nat) :
    includes s [k] = true ↔ k ∈ s := by
  induction s with
  | nil => simp [includes, startsWith]
  | cons c cs ih =>
    simp only [includes, startsWith, Bool.and_true, Bool.or_eq_true, beq_iff_eq, ih,
      List.mem_cons]
    constructor
    · rintro (h | h)
      · exact Or.inl h.symm
      · exact Or.inr h
    · rintro (h | h)
      · exact Or.inl h.symm
      · exact Or.inr h

/-- A string includes a one-unit string exactly when it can be cut around it. -/
theorem includes_singleton_iff_append (s : JSString) (k : Nat) :
    includes s [k] = true ↔ ∃ a b, s = a ++ [k] ++ b := by
  rw [includes_singleton]
  constructor
  · intro h
    obtain ⟨a, b, hab⟩ := List.append_of_mem h
    exact ⟨a, b, by simp [hab]⟩
  · rintro ⟨a, b, rfl⟩
    simp

/-! ## Lemmas on the renderer -/

theorem flatMap_congr_mem {α β : Type} (l : List α) (f g : α → List β)
    (h : ∀ x ∈ l, f x = g x) : l.flatMap f = l.flatMap g := by
  induction l with
  | nil => rfl
  | cons x rest ih =>
    rw [List.flatMap_cons, List.flatMap_cons, h x (List.mem_cons_self _ _),
      ih fun y hy => h y (List.mem_cons_of_mem _ hy)]

theorem get?_eq_some_getD {α : Type} (l : List α) (i : Nat) (d : α) (h : i < l.length) :
    l.get? i = some (l.getD i d) := by
  rw [List.get?_eq_getElem?, List.getD_eq_getElem?_getD, List.getElem?_eq_getElem h]
  rfl

theorem foldl_squares (rank : List Nat) (cols : List Nat) (result : JSString) :
    cols.foldl (fun result col => result ++ display (rank.get? col) ++ utf16 " ") result =
      result ++ cols.flatMap fun col => display (rank.get? col) ++ utf16 " " := by
  induction cols generalizing result with
  | nil => simp
  | cons col rest ih =>
    rw [List.foldl_cons, ih, List.flatMap_cons]
    simp only [List.append_assoc]

theorem renderSquares_eq (rank : List Nat) (result : JSString) :
    renderSquares rank result =
      result ++ (List.range 8).flatMap fun col => display (rank.get? col) ++ utf16 " " :=
  foldl_squares rank (List.range 8) result

theorem renderRank_some (board : List (List Nat)) (result : JSString) (row : Nat)
    (rank : List Nat) (h : board.get? row = some rank) :
    renderRank board result row = .ok (result ++ lineOf rank row) := by
  unfold renderRank
  simp only [h, renderSquares_eq, lineOf, List.append_assoc]

theorem renderRank_none (board : List (List Nat)) (result : JSString) (row : Nat)
    (h : board.get? row = none) :
    renderRank board result row = .error missingRowMessage := by
  unfold renderRank
  simp only [h]

theorem foldlM_renderRank (board : List (List Nat)) (rows : List Nat) (result : JSString)
    (h : ∀ row ∈ rows, row < board.length) :
    rows.foldlM (renderRank board) result =
      .ok (result ++ rows.flatMap fun row => lineOf (board.getD row []) row) := by
  induction rows generalizing result with
  | nil => simp [pure, Except.pure]
  | cons row rest ih =>
    have hlt := h row (List.mem_cons_self _ _)
    have hget : board.get? row = some (board.getD row []) := get?_eq_some_getD board row [] hlt
    rw [List.foldlM_cons, renderRank_some board result row _ hget]
    show List.foldlM (renderRank board) (result ++ lineOf (board.getD row []) row) rest = _
    rw [ih _ fun r hr => h r (List.mem_cons_of_mem _ hr), List.flatMap_cons,
      List.append_assoc]

/-- The output of `renderBoard` on a board with at least 8 rows, in one piece. -/
theorem renderBoard_of_rows (parsedFen : ParsedFen) (h : 8 ≤ parsedFen.board.length) :
    renderBoard parsedFen =
      .ok (utf16 "Fen \x7b\n  rows: 8,\n  columns: 8,\n  board: [\n" ++
        (utf16 "  a b c d e f g h\n" ++
          (List.range 8).flatMap (fun row => lineOf (parsedFen.board.getD row []) row) ++
          utf16 "  a b c d e f g h\n") ++
        utf16 "  ],\n" ++ metadataOf parsedFen) := by
  have hrows : ∀ row ∈ List.range 8, row < parsedFen.board.length := by
    intro row hrow
    have := List.mem_range.mp hrow
    omega
  have hhead : utf16 "Fen \x7b\n  rows: 8,\n  columns: 8,\n  board: [\n" =
      utf16 "Fen \x7b\n" ++ (utf16 "  rows: 8,\n" ++ (utf16 "  columns: 8,\n" ++
        utf16 "  board: [\n")) := by decide
  unfold renderBoard
  simp only [foldlM_renderRank parsedFen.board (List.range 8) _ hrows, metadataOf, hhead,
    List.append_assoc]

theorem numberToString_label (row : Nat) (h : row < 8) :
    numberToString (JSNumber.integer false (8 - row)) = [48 + (8 - row)] := by
  interval_cases row <;> decide

theorem display_eq_displaySpec (sq : Nat)
    (h : [sq] = utf16 " " ∨ sq ∈ utf16 "pnbrqkPNBRQK") :
    display (some sq) = displaySpec sq := by
  have h1 : utf16 " " = [32] := rfl
  have h2 : utf16 "pnbrqkPNBRQK" = [112, 110, 98, 114, 113, 107, 80, 78, 66, 82, 81, 75] :=
    rfl
  rw [h1, h2] at h
  simp only [List.cons.injEq, and_true, List.mem_cons, List.mem_singleton, List.not_mem_nil,
    or_false] at h
  rcases h with rfl | rfl | rfl | rfl | rfl | rfl | rfl | rfl | rfl | rfl | rfl | rfl | rfl <;>
    decide

theorem lineOf_eq_gridLineSpec (board : List (List Nat)) (hv : validBoard board)
    (row : Nat) (h : row < 8) :
    lineOf (board.getD row []) row = gridLineSpec board row := by
  have hlt : row < board.length := by rw [hv.1]; exact h
  have hmem : board.getD row [] ∈ board := by
    rw [List.getD_eq_getElem _ _ hlt]
    exact List.getElem_mem _
  obtain ⟨hlen, hsq⟩ := hv.2 _ hmem
  unfold lineOf gridLineSpec
  rw [numberToString_label row h]
  congr 3
  apply flatMap_congr_mem
  intro col hcol
  have hc : col < (board.getD row []).length := by
    rw [hlen]; exact List.mem_range.mp hcol
  have hget : (board.getD row []).get? col = some ((board.getD row []).getD col 32) :=
    get?_eq_some_getD _ col 32 hc
  have hin : (board.getD row []).getD col 32 ∈ board.getD row [] := by
    rw [List.getD_eq_getElem _ _ hc]
    exact List.getElem_mem _
  rw [hget, display_eq_displaySpec _ (hsq _ hin)]

/-! ## Lemmas on the shape of a parsed board -/

theorem parseBoard_shape (boardString : JSString) (board : List (List Nat))
    (h : parseBoard boardString = .ok board) :
    board.length = 8 ∧ ∀ rank ∈ board, rank.length = 8 := by
  obtain ⟨h8, hgood, hboard⟩ := (parseBoard_ok_iff _ _).mp h
  refine ⟨by rw [hboard, List.length_map, h8], ?_⟩
  intro rank hrank
  rw [hboard, List.mem_map] at hrank
  obtain ⟨row, hrow, rfl⟩ := hrank
  exact (hgood row hrow).2

theorem parseFenString_shape (fen : JSString) (p : ParsedFen)
    (h : parseFenString fen = .ok p) :
    p.board.length = 8 ∧ ∀ rank ∈ p.board, rank.length = 8 :=
  parseBoard_shape _ _ (parseFenString_ok_inv fen p h).2.1

theorem renderBoard_ok (parsedFen : ParsedFen) (h : parsedFen.board.length = 8) :
    ∃ out, renderBoard parsedFen = .ok out :=
  ⟨_, renderBoard_of_rows parsedFen (by rw [h])⟩

theorem fenToAscii_eq (fen : JSString) :
    fenToAscii fen =
      match parseFenString fen >>= renderBoard with
      | .ok visualization => .ok visualization
      | .error message => .error (utf16 "Invalid FEN: " ++ message) := rfl

theorem fenToAscii_of_ok (fen : JSString) (p : ParsedFen) (out : JSString)
    (hp : parseFenString fen = .ok p) (hr : renderBoard p = .ok out) :
    fenToAscii fen = .ok out := by
  rw [fenToAscii_eq, hp]
  show (match renderBoard p with
    | .ok visualization => Except.ok visualization
    | .error message => .error (utf16 "Invalid FEN: " ++ message)) = _
  rw [hr]

theorem fenToAscii_of_error (fen e : JSString) (hp : parseFenString fen = .error e) :
    fenToAscii fen = .error (utf16 "Invalid FEN: " ++ e) := by
  rw [fenToAscii_eq, hp]
  rfl

/-! ## Lemmas on `trim` -/

theorem dropWhile_append_of_all (p : Nat → Bool) (l t : List Nat)
    (h : ∀ x ∈ l, p x = true) : (l ++ t).dropWhile p = t.dropWhile p := by
  induction l with
  | nil => rfl
  | cons x rest ih =>
    rw [List.cons_append, List.dropWhile_cons, if_pos (h x (List.mem_cons_self _ _))]
    exact ih fun y hy => h y (List.mem_cons_of_mem _ hy)

theorem dropWhile_eq_nil_of_all (p : Nat → Bool) (l : List Nat)
    (h : ∀ x ∈ l, p x = true) : l.dropWhile p = [] := by
  have := dropWhile_append_of_all p l [] h
  rwa [List.append_nil] at this

theorem dropWhile_append_of_not_all (p : Nat → Bool) (s r : List Nat)
    (h : ¬ ∀ x ∈ s, p x = true) : (s ++ r).dropWhile p = s.dropWhile p ++ r := by
  induction s with
  | nil => exact absurd (by simp) h
  | cons x rest ih =>
    rw [List.cons_append, List.dropWhile_cons, List.dropWhile_cons]
    by_cases hx : p x = true
    · rw [if_pos hx, if_pos hx]
      apply ih
      intro hall
      apply h
      intro y hy
      rcases List.mem_cons.mp hy with rfl | hy
      · exact hx
      · exact hall y hy
    · rw [if_neg hx, if_neg hx]
      rfl

/-- White space put around a string is removed by `trim`. -/
theorem trim_pad (l s r : JSString)
    (hl : ∀ x ∈ l, isWhiteSpace x = true) (hr : ∀ x ∈ r, isWhiteSpace x = true) :
    trim (l ++ s ++ r) = trim s := by
  unfold trim
  rw [List.append_assoc, dropWhile_append_of_all isWhiteSpace l _ hl]
  by_cases hs : ∀ x ∈ s, isWhiteSpace x = true
  · rw [dropWhile_append_of_all isWhiteSpace s r hs, dropWhile_eq_nil_of_all _ r hr,
      dropWhile_eq_nil_of_all _ s hs]
  · rw [dropWhile_append_of_not_all isWhiteSpace s r hs, List.reverse_append,
      dropWhile_append_of_all isWhiteSpace r.reverse _
        (fun x hx => hr x (List.mem_reverse.mp hx))]

theorem parseFenString_congr_trim (a b : JSString) (h : trim a = trim b) :
    parseFenString a = parseFenString b := by
  rw [parseFenString_eq, parseFenString_eq, h]

set_option exponentiation.threshold 2048

/-! ## Lemmas on numbers -/

theorem bitLength_le (fuel n k : Nat) (h : n < 2 ^ k) : bitLength fuel n ≤ k := by
  induction fuel generalizing n k with
  | zero => simp [bitLength]
  | succ fuel ih =>
    unfold bitLength
    by_cases hn : n = 0
    · simp [hn]
    · rw [if_neg hn]
      cases k with
      | zero => simp at h; exact absurd h hn
      | succ k =>
        have : n / 2 < 2 ^ k := by
          rw [Nat.div_lt_iff_lt_mul (by norm_num)]
          rw [pow_succ] at h
          exact h
        have := ih (n / 2) k this
        omega

theorem lt_two_pow_bitLength (fuel n : Nat) (h : n ≤ fuel) : n < 2 ^ bitLength fuel n := by
  induction fuel generalizing n with
  | zero =>
    have : n = 0 := by omega
    subst this
    simp [bitLength]
  | succ fuel ih =>
    unfold bitLength
    by_cases hn : n = 0
    · simp [hn]
    · rw [if_neg hn]
      have h2 : n / 2 ≤ fuel := by omega
      have := ih (n / 2) h2
      rw [pow_succ]
      omega

theorem two_pow_bitLength_le (fuel n : Nat) (h : 0 < n) : 2 ^ bitLength fuel n ≤ 2 * n := by
  induction fuel generalizing n with
  | zero => simp [bitLength]; omega
  | succ fuel ih =>
    unfold bitLength
    rw [if_neg (by omega), pow_succ]
    by_cases h2 : n / 2 = 0
    · have hb : bitLength fuel (n / 2) = 0 := by
        rw [h2]
        cases fuel <;> simp [bitLength]
      rw [hb]
      omega
    · have := ih (n / 2) (by omega)
      omega

theorem roundToDouble_eq (n : Nat) :
    roundToDouble n =
      if bitLength n n ≤ 53 then some n
      else
        if 2 ^ 1024 ≤
            (if 2 ^ (bitLength n n - 53 - 1) < n % 2 ^ (bitLength n n - 53) ||
                (n % 2 ^ (bitLength n n - 53) == 2 ^ (bitLength n n - 53 - 1) &&
                  n / 2 ^ (bitLength n n - 53) % 2 == 1)
              then n / 2 ^ (bitLength n n - 53) + 1 else n / 2 ^ (bitLength n n - 53)) *
              2 ^ (bitLength n n - 53)
        then none
        else
          some
            ((if 2 ^ (bitLength n n - 53 - 1) < n % 2 ^ (bitLength n n - 53) ||
                (n % 2 ^ (bitLength n n - 53) == 2 ^ (bitLength n n - 53 - 1) &&
                  n / 2 ^ (bitLength n n - 53) % 2 == 1)
              then n / 2 ^ (bitLength n n - 53) + 1 else n / 2 ^ (bitLength n n - 53)) *
              2 ^ (bitLength n n - 53)) := rfl

/-- Below `2^53` every natural number is a double. -/
theorem roundToDouble_small (n : Nat) (h : n < 2 ^ 53) : roundToDouble n = some n := by
  rw [roundToDouble_eq, if_pos (bitLength_le n n 53 h)]

/-- A positive number does not round to zero. -/
theorem roundToDouble_pos (n m : Nat) (hn : 0 < n) (h : roundToDouble n = some m) :
    0 < m := by
  rw [roundToDouble_eq] at h
  by_cases hb : bitLength n n ≤ 53
  · rw [if_pos hb] at h
    injection h with h
    omega
  · rw [if_neg hb] at h
    have hle : 2 ^ (bitLength n n - 53) ≤ n := by
      have h1 := two_pow_bitLength_le n n hn
      have h2 : 2 ^ (bitLength n n - 53) * 2 ≤ 2 ^ bitLength n n := by
        rw [← pow_succ]
        exact Nat.pow_le_pow_right (by norm_num) (by omega)
      omega
    have hq : 0 < n / 2 ^ (bitLength n n - 53) :=
      Nat.div_pos hle (Nat.two_pow_pos _)
    have hp : 0 < 2 ^ (bitLength n n - 53) := Nat.two_pow_pos _
    split_ifs at h with h1 h2 h2
    · injection h with h
      rw [← h]
      exact Nat.mul_pos (by omega) hp
    · injection h with h
      rw [← h]
      exact Nat.mul_pos hq hp

/-- Below `2^1023` rounding to a double does not overflow. -/
theorem roundToDouble_finite (n : Nat) (hn : n < 2 ^ 1023) :
    ∃ m, roundToDouble n = some m := by
  rw [roundToDouble_eq]
  by_cases hb : bitLength n n ≤ 53
  · rw [if_pos hb]
    exact ⟨n, rfl⟩
  · rw [if_neg hb]
    have hbits : bitLength n n ≤ 1023 := bitLength_le n n 1023 hn
    have hlt : n < 2 ^ bitLength n n := lt_two_pow_bitLength n n (le_refl n)
    have hsplit : 2 ^ bitLength n n = 2 ^ 53 * 2 ^ (bitLength n n - 53) := by
      rw [← pow_add]
      congr 1
      omega
    have hq : n / 2 ^ (bitLength n n - 53) < 2 ^ 53 := by
      rw [Nat.div_lt_iff_lt_mul (Nat.two_pow_pos _)]
      rw [← hsplit]
      exact hlt
    have hbound : ∀ q, q ≤ 2 ^ 53 → ¬ 2 ^ 1024 ≤ q * 2 ^ (bitLength n n - 53) := by
      intro q hq1 hcon
      have h1 : q * 2 ^ (bitLength n n - 53) ≤ 2 ^ 53 * 2 ^ (bitLength n n - 53) :=
        Nat.mul_le_mul_right _ hq1
      rw [← hsplit] at h1
      have h2 : 2 ^ bitLength n n ≤ 2 ^ 1023 := Nat.pow_le_pow_right (Nat.le_succ 1) hbits
      have h3 : (2 : Nat) ^ 1023 < 2 ^ 1024 :=
        Nat.pow_lt_pow_right (Nat.lt_succ_self 1) (Nat.lt_succ_self 1023)
      exact absurd (le_trans hcon (le_trans h1 h2)) (not_le.mpr h3)
    split_ifs with h1 h2 h2
    · exact absurd h2 (hbound _ (by omega))
    · exact ⟨_, rfl⟩
    · exact absurd h2 (hbound _ (by omega))
    · exact ⟨_, rfl⟩

theorem isWhiteSpace_digit (d : Nat) (h : isDigit d = true) : isWhiteSpace d = false := by
  rw [isDigit_iff] at h
  obtain ⟨h1, h2⟩ := h
  interval_cases d <;> rfl

theorem parseInt_digit_start (d : Nat) (rest : JSString) (h : isDigit d = true) :
    parseInt (d :: rest) = parseIntOfRun (d :: rest) := by
  have hws := isWhiteSpace_digit d h
  have h45 : (some d == some 45) = false := by
    rw [isDigit_iff] at h
    simp only [beq_eq_false_iff_ne, ne_eq, Option.some.injEq]
    omega
  have h43 : (some d == some 43) = false := by
    rw [isDigit_iff] at h
    simp only [beq_eq_false_iff_ne, ne_eq, Option.some.injEq]
    omega
  unfold parseInt parseIntOfRun
  simp only [List.dropWhile_cons, hws, List.head?_cons, h45, h43, Bool.or_false,
    Bool.false_eq_true, if_false, List.takeWhile_cons, h, if_true, List.isEmpty_cons]

theorem takeWhile_of_all (p : Nat → Bool) (l : List Nat) (h : ∀ x ∈ l, p x = true) :
    l.takeWhile p = l := by
  induction l with
  | nil => rfl
  | cons x rest ih =>
    rw [List.takeWhile_cons, if_pos (h x (List.mem_cons_self _ _)),
      ih fun y hy => h y (List.mem_cons_of_mem _ hy)]

theorem digitsValue_append (z : JSString) (d : Nat) :
    digitsValue (z ++ [d]) = 10 * digitsValue z + (d - 48) := by
  unfold digitsValue
  rw [List.foldl_append]
  rfl

theorem digitsValue_eq_decimalValueSpec (z : JSString) :
    digitsValue z = decimalValueSpec z := by
  induction z using List.reverseRecOn with
  | nil => rfl
  | append_singleton z d ih =>
    rw [digitsValue_append, ih]
    unfold decimalValueSpec
    rw [List.reverse_append, List.reverse_singleton, List.singleton_append, List.map_cons,
      Nat.ofDigits_cons]
    omega

/-- On a string of digits `parseInt` is the rounding of its base-10 value. -/
theorem parseInt_digitString (z : JSString) (h : isDigitString z) :
    parseInt z =
      match roundToDouble (decimalValueSpec z) with
      | none => JSNumber.infinity false
      | some m => JSNumber.integer false m := by
  obtain ⟨hne, hall⟩ := h
  have hd : ∀ c ∈ z, isDigit c = true := fun c hc => (isDigit_iff c).mpr (hall c hc)
  cases z with
  | nil => exact absurd rfl hne
  | cons d rest =>
    rw [parseInt_digit_start d rest (hd d (List.mem_cons_self _ _)), parseIntOfRun,
      takeWhile_of_all isDigit _ hd, digitsValue_eq_decimalValueSpec]

theorem parseInt_digitString_small (z : JSString) (h : isDigitString z)
    (hv : decimalValueSpec z < 2 ^ 53) :
    parseInt z = JSNumber.integer false (decimalValueSpec z) := by
  rw [parseInt_digitString z h, roundToDouble_small _ hv]

theorem takeWhile_isDigit (z : JSString) : z.takeWhile isDigit = leadingDigits z := by
  unfold leadingDigits
  congr 1
  funext c
  simp [isDigit]

/-- On a string that begins with a digit `parseInt` is a non-negative integer when the
value of the leading digit run is below `2^1023`, and a positive one when that value is
not zero. -/
theorem parseInt_digit_start_integer (d : Nat) (rest : JSString)
    (hd : 48 ≤ d ∧ d ≤ 57)
    (hv : decimalValueSpec (leadingDigits (d :: rest)) < 2 ^ 1023) :
    ∃ m, parseInt (d :: rest) = JSNumber.integer false m ∧
      (decimalValueSpec (leadingDigits (d :: rest)) ≠ 0 → 0 < m) := by
  rw [parseInt_digit_start d rest ((isDigit_iff d).mpr hd), parseIntOfRun, takeWhile_isDigit,
    digitsValue_eq_decimalValueSpec]
  obtain ⟨m, hm⟩ := roundToDouble_finite _ hv
  rw [hm]
  exact ⟨m, rfl, fun hne => roundToDouble_pos _ m (Nat.pos_of_ne_zero hne) hm⟩

/-! ## Lemmas on the width of a rank -/

theorem piece_not_digit (c : Nat) (h : c ∈ utf16 "pnbrqkPNBRQK") : ¬ (48 ≤ c ∧ c ≤ 57) := by
  have h2 : utf16 "pnbrqkPNBRQK" = [112, 110, 98, 114, 113, 107, 80, 78, 66, 82, 81, 75] :=
    rfl
  rw [h2] at h
  simp only [List.mem_cons, List.mem_singleton, List.not_mem_nil, or_false] at h
  omega

theorem rankWidthSpec_nil : rankWidthSpec [] = 0 := rfl

theorem rankWidthSpec_cons (c : Nat) (row : JSString) :
    rankWidthSpec (c :: row) = (expandSpec c).length + rankWidthSpec row := by
  unfold rankWidthSpec expandSpec
  by_cases hd : 48 ≤ c ∧ c ≤ 57
  · have hp : ¬ c ∈ utf16 "pnbrqkPNBRQK" := fun hp => piece_not_digit c hp hd
    rw [List.filter_cons_of_pos (by simpa using hd),
      List.filter_cons_of_neg (by simpa using hp), if_pos hd]
    simp only [List.map_cons, List.sum_cons, List.length_replicate]
    omega
  · by_cases hp : c ∈ utf16 "pnbrqkPNBRQK"
    · rw [List.filter_cons_of_neg (by simpa using hd),
        List.filter_cons_of_pos (by simpa using hp), if_neg hd, if_pos hp]
      simp only [List.length_cons, List.length_nil]
      omega
    · rw [List.filter_cons_of_neg (by simpa using hd),
        List.filter_cons_of_neg (by simpa using hp), if_neg hd, if_neg hp]
      simp only [List.length_nil]
      omega

theorem length_flatMap_expandSpec (row : JSString) :
    (row.flatMap expandSpec).length = rankWidthSpec row := by
  induction row with
  | nil => rfl
  | cons c rest ih =>
    rw [List.flatMap_cons, List.length_append, ih, rankWidthSpec_cons]

/-- The exact condition under which the parser accepts an input. -/
theorem parseFenString_ok_iff (fen : JSString) :
    (∃ p, parseFenString fen = .ok p) ↔
      (split 32 (trim fen)).length = 6 ∧
      (split 47 ((split 32 (trim fen)).getD 0 [])).length = 8 ∧
      ∀ row ∈ split 47 ((split 32 (trim fen)).getD 0 []), goodRow row := by
  constructor
  · rintro ⟨p, hp⟩
    obtain ⟨h6, hb, _⟩ := parseFenString_ok_inv fen p hp
    obtain ⟨h8, hgood, _⟩ := (parseBoard_ok_iff _ _).mp hb
    exact ⟨h6, h8, hgood⟩
  · rintro ⟨h6, h8, hgood⟩
    have hb := (parseBoard_ok_iff ((split 32 (trim fen)).getD 0 []) _).mpr ⟨h8, hgood, rfl⟩
    exact ⟨_, parseFenString_board_ok fen _ h6 hb⟩

/-! ## Lemmas on reading the board back from the rendering -/

theorem length_ite_one (c : Prop) [Decidable c] (a b : JSString)
    (ha : a.length = 1) (hb : b.length = 1) : (if c then a else b).length = 1 := by
  split
  · exact ha
  · exact hb

theorem length_displaySpec (sq : Nat) : (displaySpec sq).length = 1 := by
  unfold displaySpec
  repeat' (first | apply length_ite_one | rfl)

theorem displaySpec_injective (a b : Nat)
    (ha : [a] = utf16 " " ∨ a ∈ utf16 "pnbrqkPNBRQK")
    (hb : [b] = utf16 " " ∨ b ∈ utf16 "pnbrqkPNBRQK")
    (h : displaySpec a = displaySpec b) : a = b := by
  have h1 : utf16 " " = [32] := rfl
  have h2 : utf16 "pnbrqkPNBRQK" = [112, 110, 98, 114, 113, 107, 80, 78, 66, 82, 81, 75] :=
    rfl
  rw [h1, h2] at ha hb
  simp only [List.cons.injEq, and_true, List.mem_cons, List.mem_singleton, List.not_mem_nil,
    or_false] at ha hb
  rcases ha with rfl | rfl | rfl | rfl | rfl | rfl | rfl | rfl | rfl | rfl | rfl | rfl | rfl <;>
    rcases hb with rfl | rfl | rfl | rfl | rfl | rfl | rfl | rfl | rfl | rfl | rfl | rfl | rfl <;>
    first
      | rfl
      | exact absurd h (by decide)

theorem length_flatMap_const {α β : Type} (l : List α) (f : α → List β) (k : Nat)
    (h : ∀ x ∈ l, (f x).length = k) : (l.flatMap f).length = l.length * k := by
  induction l with
  | nil => simp
  | cons x rest ih =>
    rw [List.flatMap_cons, List.length_append, h x (List.mem_cons_self _ _),
      ih fun y hy => h y (List.mem_cons_of_mem _ hy), List.length_cons]
    ring

theorem flatMap_inj {α β : Type} (l : List α) (f g : α → List β)
    (hlen : ∀ x ∈ l, (f x).length = (g x).length)
    (h : l.flatMap f = l.flatMap g) : ∀ x ∈ l, f x = g x := by
  induction l with
  | nil => intro x hx; cases hx
  | cons y rest ih =>
    rw [List.flatMap_cons, List.flatMap_cons] at h
    obtain ⟨h1, h2⟩ := List.append_inj h (hlen y (List.mem_cons_self _ _))
    intro x hx
    rcases List.mem_cons.mp hx with rfl | hx
    · exact h1
    · exact ih (fun z hz => hlen z (List.mem_cons_of_mem _ hz)) h2 x hx

theorem length_cells (rank : List Nat) :
    ((List.range 8).flatMap fun col => displaySpec (rank.getD col 32) ++ utf16 " ").length =
      16 := by
  rw [length_flatMap_const _ _ 2]
  · rfl
  · intro col _
    rw [List.length_append, length_displaySpec]
    rfl

theorem length_gridLineSpec (board : List (List Nat)) (i : Nat) :
    (gridLineSpec board i).length = 20 := by
  unfold gridLineSpec
  rw [List.length_append, List.length_append, List.length_append, List.length_append,
    length_cells]
  rfl

theorem length_gridSpec (board : List (List Nat)) : (gridSpec board).length = 196 := by
  unfold gridSpec
  rw [List.length_append, List.length_append,
    length_flatMap_const _ _ 20 fun i _ => length_gridLineSpec board i]
  rfl

/-- The output of `renderBoard` on a valid board, with the grid of the specification. -/
theorem renderBoard_valid (parsedFen : ParsedFen) (hv : validBoard parsedFen.board) :
    renderBoard parsedFen =
      .ok (utf16 "Fen \x7b\n  rows: 8,\n  columns: 8,\n  board: [\n" ++
        gridSpec parsedFen.board ++ utf16 "  ],\n" ++ metadataOf parsedFen) := by
  rw [renderBoard_of_rows parsedFen (by rw [hv.1]), gridSpec]
  rw [flatMap_congr_mem (List.range 8) _ (gridLineSpec parsedFen.board)
    fun row hrow => lineOf_eq_gridLineSpec parsedFen.board hv row (List.mem_range.mp hrow)]

/-- Equal grids have equal squares. -/
theorem squares_of_gridSpec_eq (b1 b2 : List (List Nat))
    (h1 : validBoard b1) (h2 : validBoard b2) (h : gridSpec b1 = gridSpec b2)
    (i j : Nat) (hi : i < 8) (hj : j < 8) :
    (b1.getD i []).getD j 32 = (b2.getD i []).getD j 32 := by
  unfold gridSpec at h
  have hlines := List.append_cancel_left (List.append_cancel_right h)
  have hline := flatMap_inj (List.range 8) _ _
    (fun x _ => by rw [length_gridLineSpec, length_gridLineSpec]) hlines i
    (List.mem_range.mpr hi)
  unfold gridLineSpec at hline
  have hcells := List.append_cancel_left
    (List.append_cancel_right (List.append_cancel_right hline))
  have hcell := flatMap_inj (List.range 8) _ _
    (fun x _ => by
      rw [List.length_append, List.length_append, length_displaySpec, length_displaySpec])
    hcells j (List.mem_range.mpr hj)
  have hdisp := List.append_cancel_right hcell
  have hmem : ∀ (b : List (List Nat)), validBoard b →
      [(b.getD i []).getD j 32] = utf16 " " ∨
        (b.getD i []).getD j 32 ∈ utf16 "pnbrqkPNBRQK" := by
    intro b hb
    have hlt : i < b.length := by rw [hb.1]; exact hi
    have hrow : b.getD i [] ∈ b := by
      rw [List.getD_eq_getElem _ _ hlt]
      exact List.getElem_mem _
    obtain ⟨hlen, hsq⟩ := hb.2 _ hrow
    have hc : j < (b.getD i []).length := by rw [hlen]; exact hj
    apply hsq
    rw [List.getD_eq_getElem _ _ hc]
    exact List.getElem_mem _
  exact displaySpec_injective _ _ (hmem b1 h1) (hmem b2 h2) hdisp

theorem eq_of_getD_eq {α : Type} (l1 l2 : List α) (d : α) (n : Nat)
    (h1 : l1.length = n) (h2 : l2.length = n)
    (h : ∀ i, i < n → l1.getD i d = l2.getD i d) : l1 = l2 := by
  apply List.ext_getElem (by rw [h1, h2])
  intro i hi1 hi2
  have := h i (by rw [← h1]; exact hi1)
  rw [List.getD_eq_getElem _ _ hi1, List.getD_eq_getElem _ _ hi2] at this
  exact this

/-- Two valid boards with the same rendering are the same board. -/
theorem board_eq_of_renderBoard_eq (p q : ParsedFen)
    (hp : validBoard p.board) (hq : validBoard q.board)
    (h : renderBoard p = renderBoard q) : p.board = q.board := by
  rw [renderBoard_valid p hp, renderBoard_valid q hq] at h
  injection h with h
  rw [List.append_assoc, List.append_assoc, List.append_assoc, List.append_assoc] at h
  have h1 := List.append_cancel_left h
  obtain ⟨hgrid, _⟩ := List.append_inj h1 (by rw [length_gridSpec, length_gridSpec])
  apply eq_of_getD_eq p.board q.board [] 8 hp.1 hq.1
  intro i hi
  have hrow : ∀ (b : List (List Nat)), validBoard b → (b.getD i []).length = 8 := by
    intro b hb
    have hlt : i < b.length := by rw [hb.1]; exact hi
    have hmem : b.getD i [] ∈ b := by
      rw [List.getD_eq_getElem _ _ hlt]
      exact List.getElem_mem _
    exact (hb.2 _ hmem).1
  apply eq_of_getD_eq _ _ 32 8 (hrow _ hp) (hrow _ hq)
  intro j hj
  exact squares_of_gridSpec_eq p.board q.board hp hq hgrid i j hi hj

/-! ## Lemmas on printing numbers -/

/-- From `2^53` on, rounding to a double stays at `2^53` or above. -/
theorem roundToDouble_ge (n m : Nat) (hn : 2 ^ 53 ≤ n) (h : roundToDouble n = some m) :
    2 ^ 53 ≤ m := by
  rw [roundToDouble_eq] at h
  by_cases hb : bitLength n n ≤ 53
  · rw [if_pos hb] at h
    injection h with h
    omega
  · rw [if_neg hb] at h
    have hbits : bitLength n n = 52 + (bitLength n n - 53) + 1 := by omega
    have hsplit : 2 ^ bitLength n n = 2 ^ 52 * 2 ^ (bitLength n n - 53) * 2 := by
      conv_lhs => rw [hbits]
      rw [pow_succ, pow_add]
    have h1 := two_pow_bitLength_le n n (by omega)
    have hq : 2 ^ 52 ≤ n / 2 ^ (bitLength n n - 53) := by
      rw [Nat.le_div_iff_mul_le (Nat.two_pow_pos _)]
      omega
    have he : 2 ≤ 2 ^ (bitLength n n - 53) := by
      have : 2 ^ 1 ≤ 2 ^ (bitLength n n - 53) :=
        Nat.pow_le_pow_right (by decide) (by omega)
      simpa using this
    have hbound : ∀ q, 2 ^ 52 ≤ q → 2 ^ 53 ≤ q * 2 ^ (bitLength n n - 53) := by
      intro q hq1
      calc 2 ^ 53 = 2 ^ 52 * 2 := by norm_num
        _ ≤ q * 2 := Nat.mul_le_mul_right _ hq1
        _ ≤ q * 2 ^ (bitLength n n - 53) := Nat.mul_le_mul_left _ he
    split_ifs at h with h2 h3 h3
    · injection h with h
      rw [← h]
      exact hbound _ (by omega)
    · injection h with h
      rw [← h]
      exact hbound _ hq

theorem shortestDecimal_eq (x : Nat) :
    shortestDecimal x =
      ((List.range 17).findSome? (shortestStep x (natToString x).length)).getD x := rfl

theorem shortestStep_small (x n i : Nat) (hx : x < 2 ^ 53) :
    shortestStep x n i = none ∨ shortestStep x n i = some x := by
  have hp : 0 < 10 ^ (n - (i + 1)) := Nat.pos_pow_of_pos _ (by decide)
  have hlo : x / 10 ^ (n - (i + 1)) * 10 ^ (n - (i + 1)) ≤ x := Nat.div_mul_le_self _ _
  have hhi : x < (x / 10 ^ (n - (i + 1)) + 1) * 10 ^ (n - (i + 1)) := by
    have h1 := Nat.div_add_mod' x (10 ^ (n - (i + 1)))
    have h2 := Nat.mod_lt x hp
    rw [Nat.add_mul, Nat.one_mul]
    omega
  have hokLo : (roundToDouble (x / 10 ^ (n - (i + 1)) * 10 ^ (n - (i + 1))) == some x) = true →
      x / 10 ^ (n - (i + 1)) * 10 ^ (n - (i + 1)) = x := by
    intro h
    rw [roundToDouble_small _ (lt_of_le_of_lt hlo hx)] at h
    simpa using h
  have hokHi : (roundToDouble ((x / 10 ^ (n - (i + 1)) + 1) * 10 ^ (n - (i + 1))) == some x) =
      false := by
    rw [beq_eq_false_iff_ne]
    intro h
    by_cases hsmall : (x / 10 ^ (n - (i + 1)) + 1) * 10 ^ (n - (i + 1)) < 2 ^ 53
    · rw [roundToDouble_small _ hsmall] at h
      injection h with h
      omega
    · have := roundToDouble_ge _ x (by omega) h
      omega
  unfold shortestStep
  simp only [hokHi, Bool.and_false, Bool.false_eq_true, if_false]
  by_cases hl : (roundToDouble (x / 10 ^ (n - (i + 1)) * 10 ^ (n - (i + 1))) == some x) = true
  · rw [if_pos hl, hokLo hl]
    exact Or.inr rfl
  · rw [if_neg hl]
    exact Or.inl rfl

theorem findSome?_getD_of_const {α : Type} (l : List α) (f : α → Option Nat) (x : Nat)
    (h : ∀ a, f a = none ∨ f a = some x) : (l.findSome? f).getD x = x := by
  induction l with
  | nil => rfl
  | cons a rest ih =>
    rw [List.findSome?_cons]
    rcases h a with ha | ha
    · rw [ha]
      exact ih
    · rw [ha]
      rfl

/-- Below `2^53` the shortest decimal of a number is the number. -/
theorem shortestDecimal_small (x : Nat) (hx : x < 2 ^ 53) : shortestDecimal x = x := by
  rw [shortestDecimal_eq]
  exact findSome?_getD_of_const _ _ x fun i => shortestStep_small x _ i hx

theorem length_decimalDigits_le (fuel n k : Nat) (hk : 0 < k) (h : n < 10 ^ k) :
    (decimalDigits fuel n).length ≤ k := by
  induction fuel generalizing n k with
  | zero => simp [decimalDigits]
  | succ fuel ih =>
    unfold decimalDigits
    by_cases hn : n < 10
    · rw [if_pos hn]
      simpa using hk
    · rw [if_neg hn, List.length_append]
      cases k with
      | zero => omega
      | succ k =>
        cases k with
        | zero => simp at h; omega
        | succ k =>
          have : n / 10 < 10 ^ (k + 1) := by
            rw [Nat.div_lt_iff_lt_mul (by decide)]
            rw [pow_succ] at h
            exact h
          have := ih (n / 10) (k + 1) (by omega) this
          simp only [List.length_singleton]
          omega

theorem magnitudeToString_eq (m : Nat) :
    magnitudeToString m =
      if (natToString (shortestDecimal m)).length ≤ 21 then natToString (shortestDecimal m)
      else
        match stripZeros (natToString (shortestDecimal m)) with
        | [] =>
          natToString (shortestDecimal m) ++
            (utf16 "e+" ++ natToString ((natToString (shortestDecimal m)).length - 1))
        | [d] =>
          [d] ++ (utf16 "e+" ++ natToString ((natToString (shortestDecimal m)).length - 1))
        | d :: rest =>
          [d] ++ utf16 "." ++ rest ++
            (utf16 "e+" ++ natToString ((natToString (shortestDecimal m)).length - 1)) := rfl

theorem magnitudeToString_small (m : Nat) (hm : m < 2 ^ 53) :
    magnitudeToString m = natToString m := by
  have hlen : (natToString m).length ≤ 21 :=
    length_decimalDigits_le (m + 1) m 21 (by decide)
      (lt_of_lt_of_le hm (by norm_num))
  rw [magnitudeToString_eq, shortestDecimal_small m hm, if_pos hlen]

theorem decimalDigits_eq_digits (fuel n : Nat) (hf : n < fuel) (hn : 0 < n) :
    decimalDigits fuel n = (Nat.digits 10 n).reverse.map fun d => 48 + d := by
  induction fuel generalizing n with
  | zero => omega
  | succ fuel ih =>
    unfold decimalDigits
    by_cases h10 : n < 10
    · rw [if_pos h10, Nat.digits_of_lt 10 n (by omega) h10]
      rfl
    · rw [if_neg h10, ih (n / 10) (by omega) (by omega),
        Nat.digits_def' (by decide) hn, List.reverse_cons, List.map_append]
      rfl

theorem natToString_eq_decimalNumeralSpec (n : Nat) : natToString n = decimalNumeralSpec n := by
  unfold decimalNumeralSpec
  by_cases h0 : n = 0
  · rw [if_pos h0, h0]
    rfl
  · rw [if_neg h0]
    exact decimalDigits_eq_digits (n + 1) n (by omega) (by omega)

/-- A non-negative integer below `2^53` is printed as its decimal numeral. -/
theorem numberToString_integer (negative : Bool) (m : Nat) :
    numberToString (JSNumber.integer negative m) =
      if m = 0 then utf16 "0"
      else (if negative then utf16 "-" else []) ++ magnitudeToString m := rfl

theorem numberToString_small (n : Nat) (hn : n < 2 ^ 53) :
    numberToString (JSNumber.integer false n) = decimalNumeralSpec n := by
  rw [← natToString_eq_decimalNumeralSpec, numberToString_integer]
  by_cases h0 : n = 0
  · rw [if_pos h0, h0]
    rfl
  · rw [if_neg h0, magnitudeToString_small n hn]
    rfl

set_option maxRecDepth 1000000

/-! ## Claims -/

/-- C1: `parseFenString` fails with the message "FEN must have exactly 6 fields" if and
only if the trimmed input, split on single spaces, does not give exactly 6 tokens; for
such an input that message is the whole result, so no other error is reported. -/
theorem C1_field_count_error_iff (fen : JSString) :
    parseFenString fen = .error (utf16 "FEN must have exactly 6 fields") ↔
      (split 32 (trim fen)).length ≠ 6 := by
  constructor
  · intro h h6
    cases hb : parseBoard ((split 32 (trim fen)).getD 0 []) with
    | ok board =>
      rw [parseFenString_board_ok fen board h6 hb] at h
      cases h
    | error e =>
      rw [parseFenString_board_error fen e h6 hb] at h
      injection h with h
      subst h
      rcases parseBoard_error _ _ hb with h1 | h1 | ⟨c, h1⟩
      · exact absurd h1 (by decide)
      · exact absurd h1 (by decide)
      · have h2 := congrArg List.head? h1
        have h3 : (utf16 "Invalid character in board: " ++ [c]).head? = some 73 := rfl
        rw [h3] at h2
        exact absurd h2 (by decide)
  · exact parseFenString_not_six fen

/-- C2: when `parseFenString` succeeds the board has exactly 8 ranks, every rank has
exactly 8 squares, and every square is the empty value " " or one of the 12 piece letters
p, n, b, r, q, k, P, N, B, R, Q, K. -/
theorem C2_parsed_board_is_8x8_over_alphabet (fen : JSString) (p : ParsedFen)
    (h : parseFenString fen = .ok p) :
    p.board.length = 8 ∧
      ∀ rank ∈ p.board, rank.length = 8 ∧
        ∀ sq ∈ rank, [sq] = utf16 " " ∨ sq ∈ utf16 "pnbrqkPNBRQK" := by
  obtain ⟨_, hb, _⟩ := parseFenString_ok_inv fen p h
  obtain ⟨h8, hgood, hboard⟩ := (parseBoard_ok_iff _ _).mp hb
  refine ⟨by rw [hboard, List.length_map, h8], ?_⟩
  intro rank hrank
  rw [hboard, List.mem_map] at hrank
  obtain ⟨row, hrow, rfl⟩ := hrank
  refine ⟨(hgood row hrow).2, ?_⟩
  intro sq hsq
  rw [List.mem_flatMap] at hsq
  obtain ⟨c, _, hc⟩ := hsq
  exact mem_expandSpec sq c hc

/-- Witness of C2: the parse of the empty board satisfies the shape invariant. -/
theorem C2_parsed_board_is_8x8_over_alphabet_witness :
    ∃ p, parseFenString (utf16 "8/8/8/8/8/8/8/8 w - - 0 1") = .ok p ∧
      p.board.length = 8 ∧
      ∀ rank ∈ p.board, rank.length = 8 ∧
        ∀ sq ∈ rank, [sq] = utf16 " " ∨ sq ∈ utf16 "pnbrqkPNBRQK" :=
  ⟨{ board := List.replicate 8 (List.replicate 8 32)
     toMove := utf16 "white"
     castlingRights := ⟨⟨false, false⟩, ⟨false, false⟩⟩
     enPassantSquare := utf16 "-"
     halfMoves := JSNumber.integer false 0
     fullMoves := JSNumber.integer false 1 },
   by decide,
   C2_parsed_board_is_8x8_over_alphabet (utf16 "8/8/8/8/8/8/8/8 w - - 0 1") _ (by decide)⟩

/-- C3: when `parseBoard` succeeds, rank `i` of the board (`i = 0..7`, rank 0 being the
first "/"-separated rank string) is the concatenation, over the characters of the `i`-th
rank string from left to right, of `d` empty squares for a digit `d` and of the letter
itself for a piece letter.  Digits are expanded one by one: the rank "44" gives the same
eight empty squares as "8". -/
theorem C3_rank_is_expansion_of_its_characters (field : JSString)
    (board : List (List Nat)) (h : parseBoard field = .ok board) :
    board.length = 8 ∧ (split 47 field).length = 8 ∧
      (∀ i, i < 8 →
        board[i]? = some (((split 47 field).getD i []).flatMap expandSpec)) ∧
      parseBoard (utf16 "44/8/8/8/8/8/8/8") = parseBoard (utf16 "8/8/8/8/8/8/8/8") ∧
      parseBoard (utf16 "44/8/8/8/8/8/8/8") =
        .ok (List.replicate 8 (List.replicate 8 32)) := by
  obtain ⟨h8, _, hboard⟩ := (parseBoard_ok_iff _ _).mp h
  refine ⟨by rw [hboard, List.length_map, h8], h8, ?_, by decide, by decide⟩
  intro i hi
  have hlt : i < (split 47 field).length := by omega
  rw [hboard, List.getElem?_map, List.getElem?_eq_getElem hlt, List.getD_eq_getElem _ _ hlt]
  rfl

/-- Witness of C3: a board with pieces, digits and adjacent digits. -/
theorem C3_rank_is_expansion_of_its_characters_witness :
    parseBoard (utf16 "r3k2r/44/p1p1p1p1/8/8/3P4/PPP2PPP/R3K2R") =
        .ok [utf16 "r   k  r", utf16 "        ", utf16 "p p p p ", utf16 "        ",
          utf16 "        ", utf16 "   P    ", utf16 "PPP  PPP", utf16 "R   K  R"] ∧
      ([utf16 "r   k  r", utf16 "        ", utf16 "p p p p ", utf16 "        ",
          utf16 "        ", utf16 "   P    ", utf16 "PPP  PPP", utf16 "R   K  R"] :
            List (List Nat))[1]? =
        some (((split 47 (utf16 "r3k2r/44/p1p1p1p1/8/8/3P4/PPP2PPP/R3K2R")).getD 1 []).flatMap
          expandSpec) :=
  ⟨by decide,
   (C3_rank_is_expansion_of_its_characters
      (utf16 "r3k2r/44/p1p1p1p1/8/8/3P4/PPP2PPP/R3K2R") _ (by decide)).2.2.1 1 (by decide)⟩

/-- C4: an input with exactly 6 space-separated fields whose first field, split on "/",
does not give exactly 8 rank strings makes `parseFenString` fail with the message "Board
must have exactly 8 rows", whatever the rank strings and the other five fields hold. -/
theorem C4_rank_count_error (fen : JSString)
    (h6 : (split 32 (trim fen)).length = 6)
    (h8 : (split 47 ((split 32 (trim fen)).getD 0 [])).length ≠ 8) :
    parseFenString fen = .error (utf16 "Board must have exactly 8 rows") :=
  parseFenString_board_error fen _ h6 (parseBoard_not_eight _ h8)

/-- Witness of C4: seven ranks, one of them with a letter that is no piece, and odd
values in the other fields. -/
theorem C4_rank_count_error_witness :
    (split 32 (trim (utf16 "8/8/x9/8/8/8/8 ? zz e9 -1 y"))).length = 6 ∧
      (split 47 ((split 32 (trim (utf16 "8/8/x9/8/8/8/8 ? zz e9 -1 y"))).getD 0 [])).length
        ≠ 8 ∧
      parseFenString (utf16 "8/8/x9/8/8/8/8 ? zz e9 -1 y") =
        .error (utf16 "Board must have exactly 8 rows") :=
  ⟨by decide, by decide,
   C4_rank_count_error (utf16 "8/8/x9/8/8/8/8 ? zz e9 -1 y") (by decide) (by decide)⟩

/-- C5, as amended: in a piece-placement field with exactly 8 ranks, let `row` be a rank
before which every rank is accepted (digits 0-9 and piece letters only, expanding to 8
squares) and let `c` be the first character of `row` that is neither an ASCII digit 0-9
nor a piece letter.  Then `parseBoard` fails with "Invalid character in board: c", and so
does `parseFenString` on every 6-field input with that first field. -/
theorem C5_first_invalid_character_is_named (field : JSString)
    (pre post : List JSString) (row a b : JSString) (c : Nat)
    (h8 : (split 47 field).length = 8)
    (hsplit : split 47 field = pre ++ row :: post)
    (hpre : ∀ r ∈ pre, goodRow r)
    (hrow : row = a ++ c :: b)
    (ha : ∀ x ∈ a, validChar x)
    (hc : ¬ validChar c) :
    parseBoard field = .error (utf16 "Invalid character in board: " ++ [c]) ∧
      ∀ fen, (split 32 (trim fen)).length = 6 →
        (split 32 (trim fen)).getD 0 [] = field →
        parseFenString fen = .error (utf16 "Invalid character in board: " ++ [c]) := by
  have hb : parseBoard field = .error (utf16 "Invalid character in board: " ++ [c]) := by
    rw [parseBoard_of_eight _ h8, hsplit]
    apply parseRows_first_bad pre post row _ hpre
    rw [hrow]
    exact parseRow_invalid a b c ha (not_validChar c hc).1 (not_validChar c hc).2
  refine ⟨hb, ?_⟩
  intro fen h6 h0
  apply parseFenString_board_error fen _ h6
  rw [h0]
  exact hb

/-- Witness of C5: "8/8/8/8/8/8/8/X7" fails naming X. -/
theorem C5_first_invalid_character_is_named_witness :
    parseBoard (utf16 "8/8/8/8/8/8/8/X7") = .error (utf16 "Invalid character in board: X") ∧
      parseFenString (utf16 "8/8/8/8/8/8/8/X7 w - - 0 1") =
        .error (utf16 "Invalid character in board: X") :=
  have h := C5_first_invalid_character_is_named (utf16 "8/8/8/8/8/8/8/X7")
    (List.replicate 7 (utf16 "8")) [] (utf16 "X7") [] (utf16 "7") 88
    (by decide) (by decide) (by decide) (by decide) (by decide) (by decide)
  ⟨h.1, h.2 (utf16 "8/8/8/8/8/8/8/X7 w - - 0 1") (by decide) (by decide)⟩

/-- Counterexample to C5 as stated.  Each field has exactly 8 ranks and a rank with a
character that is neither a digit 1-8 nor a piece letter, yet: "08/8/8/8/8/8/8/8" (the
character 0) is parsed without error; "9/8/8/8/8/8/8/8" (the character 9) fails with the
rank-width message; "7/8/8/8/8/8/8/X7" (the character X) fails with the rank-width message
of the first rank; "XY6/8/8/8/8/8/8/8" (the character Y) fails naming X. -/
theorem C5_counterexample :
    ((split 47 (utf16 "08/8/8/8/8/8/8/8")).length = 8 ∧
      48 ∈ (split 47 (utf16 "08/8/8/8/8/8/8/8")).getD 0 [] ∧
      ¬ (49 ≤ 48 ∧ 48 ≤ 56) ∧ 48 ∉ utf16 "pnbrqkPNBRQK" ∧
      parseBoard (utf16 "08/8/8/8/8/8/8/8") = .ok (List.replicate 8 (List.replicate 8 32)) ∧
      parseBoard (utf16 "08/8/8/8/8/8/8/8") ≠
        .error (utf16 "Invalid character in board: 0")) ∧
    ((split 47 (utf16 "9/8/8/8/8/8/8/8")).length = 8 ∧
      57 ∈ (split 47 (utf16 "9/8/8/8/8/8/8/8")).getD 0 [] ∧
      ¬ (49 ≤ 57 ∧ 57 ≤ 56) ∧ 57 ∉ utf16 "pnbrqkPNBRQK" ∧
      parseBoard (utf16 "9/8/8/8/8/8/8/8") =
        .error (utf16 "Each row must have exactly 8 squares") ∧
      parseBoard (utf16 "9/8/8/8/8/8/8/8") ≠
        .error (utf16 "Invalid character in board: 9")) ∧
    ((split 47 (utf16 "7/8/8/8/8/8/8/X7")).length = 8 ∧
      88 ∈ (split 47 (utf16 "7/8/8/8/8/8/8/X7")).getD 7 [] ∧
      ¬ (49 ≤ 88 ∧ 88 ≤ 56) ∧ 88 ∉ utf16 "pnbrqkPNBRQK" ∧
      parseBoard (utf16 "7/8/8/8/8/8/8/X7") =
        .error (utf16 "Each row must have exactly 8 squares") ∧
      parseBoard (utf16 "7/8/8/8/8/8/8/X7") ≠
        .error (utf16 "Invalid character in board: X")) ∧
    ((split 47 (utf16 "XY6/8/8/8/8/8/8/8")).length = 8 ∧
      89 ∈ (split 47 (utf16 "XY6/8/8/8/8/8/8/8")).getD 0 [] ∧
      ¬ (49 ≤ 89 ∧ 89 ≤ 56) ∧ 89 ∉ utf16 "pnbrqkPNBRQK" ∧
      parseBoard (utf16 "XY6/8/8/8/8/8/8/8") =
        .error (utf16 "Invalid character in board: X") ∧
      parseBoard (utf16 "XY6/8/8/8/8/8/8/8") ≠
        .error (utf16 "Invalid character in board: Y")) := by
  refine ⟨⟨?_, ?_, ?_, ?_, ?_, ?_⟩, ⟨?_, ?_, ?_, ?_, ?_, ?_⟩, ⟨?_, ?_, ?_, ?_, ?_, ?_⟩,
    ⟨?_, ?_, ?_, ?_, ?_, ?_⟩⟩ <;> decide

/-- C6: in a piece-placement field with exactly 8 ranks all of whose characters are digits
or piece letters, if some rank does not expand to exactly 8 squares then `parseBoard` fails
with "Each row must have exactly 8 squares" (that message is the whole result), and so
does `parseFenString` on every 6-field input with that first field. -/
theorem C6_rank_width_error (field : JSString)
    (h8 : (split 47 field).length = 8)
    (hv : ∀ row ∈ split 47 field, ∀ c ∈ row, validChar c)
    (hw : ∃ row ∈ split 47 field, (row.flatMap expandSpec).length ≠ 8) :
    parseBoard field = .error (utf16 "Each row must have exactly 8 squares") ∧
      ∀ fen, (split 32 (trim fen)).length = 6 →
        (split 32 (trim fen)).getD 0 [] = field →
        parseFenString fen = .error (utf16 "Each row must have exactly 8 squares") := by
  have hb : parseBoard field = .error (utf16 "Each row must have exactly 8 squares") := by
    rw [parseBoard_of_eight _ h8]
    rcases rows_good_or_first_bad (split 47 field) with hg | ⟨pre, row, post, hrows, hpre, hbad⟩
    · obtain ⟨row, hrow, hlen⟩ := hw
      exact absurd (hg row hrow).2 hlen
    · have hmem : row ∈ split 47 field := by rw [hrows]; simp
      have hlen : (row.flatMap expandSpec).length ≠ 8 := fun hlen =>
        hbad ⟨hv row hmem, hlen⟩
      rw [hrows]
      exact parseRows_first_bad pre post row _ hpre (parseRow_width row (hv row hmem) hlen)
  refine ⟨hb, ?_⟩
  intro fen h6 h0
  apply parseFenString_board_error fen _ h6
  rw [h0]
  exact hb

/-- Witness of C6: "9/8/8/8/8/8/8/8 w - - 0 1" fails with the rank-width message. -/
theorem C6_rank_width_error_witness :
    parseBoard (utf16 "9/8/8/8/8/8/8/8") =
        .error (utf16 "Each row must have exactly 8 squares") ∧
      parseFenString (utf16 "9/8/8/8/8/8/8/8 w - - 0 1") =
        .error (utf16 "Each row must have exactly 8 squares") :=
  have h := C6_rank_width_error (utf16 "9/8/8/8/8/8/8/8") (by decide) (by decide)
    ⟨utf16 "9", by decide, by decide⟩
  ⟨h.1, h.2 (utf16 "9/8/8/8/8/8/8/8 w - - 0 1") (by decide) (by decide)⟩

/-- C7: `parseCastlingRights` sets white-kingside, white-queenside, black-kingside and
black-queenside to true exactly when the castling field contains the letter K, Q, k, q
respectively, whatever else it holds; "-" gives all four false, "KQkq" all four true, and
"Kk" exactly white-kingside and black-kingside. -/
theorem C7_castling_rights_by_letter (c : JSString) :
    ((parseCastlingRights c).white.kingside = true ↔ ∃ a b, c = a ++ utf16 "K" ++ b) ∧
    ((parseCastlingRights c).white.queenside = true ↔ ∃ a b, c = a ++ utf16 "Q" ++ b) ∧
    ((parseCastlingRights c).black.kingside = true ↔ ∃ a b, c = a ++ utf16 "k" ++ b) ∧
    ((parseCastlingRights c).black.queenside = true ↔ ∃ a b, c = a ++ utf16 "q" ++ b) ∧
    parseCastlingRights (utf16 "-") =
      { white := { queenside := false, kingside := false }
        black := { queenside := false, kingside := false } } ∧
    parseCastlingRights (utf16 "KQkq") =
      { white := { queenside := true, kingside := true }
        black := { queenside := true, kingside := true } } ∧
    parseCastlingRights (utf16 "Kk") =
      { white := { queenside := false, kingside := true }
        black := { queenside := false, kingside := true } } :=
  ⟨includes_singleton_iff_append c 75, includes_singleton_iff_append c 81,
   includes_singleton_iff_append c 107, includes_singleton_iff_append c 113,
   by decide, by decide, by decide⟩

/-- C8: when `parseFenString` succeeds, the side to move is white if and only if the
second field is exactly "w", and black for every other second field; the second field
never makes the parse fail: every 6-field input with the same first field is parsed too. -/
theorem C8_side_to_move (fen : JSString) (p : ParsedFen)
    (h : parseFenString fen = .ok p) :
    (p.toMove = utf16 "white" ↔ (split 32 (trim fen)).getD 1 [] = utf16 "w") ∧
    ((split 32 (trim fen)).getD 1 [] ≠ utf16 "w" → p.toMove = utf16 "black") ∧
    ∀ fen', (split 32 (trim fen')).length = 6 →
      (split 32 (trim fen')).getD 0 [] = (split 32 (trim fen)).getD 0 [] →
      ∃ p', parseFenString fen' = .ok p' ∧ p'.board = p.board := by
  obtain ⟨_, hb, hmove, _⟩ := parseFenString_ok_inv fen p h
  refine ⟨?_, ?_, ?_⟩
  · rw [hmove]
    by_cases hw : (split 32 (trim fen)).getD 1 [] = utf16 "w"
    · rw [if_pos hw]
      exact ⟨fun _ => hw, fun _ => rfl⟩
    · rw [if_neg hw]
      exact ⟨fun hbw => absurd hbw (by decide), fun hw1 => absurd hw1 hw⟩
  · intro hw
    rw [hmove, if_neg hw]
  · intro fen' h6 h0
    rw [← h0] at hb
    exact ⟨_, parseFenString_board_ok fen' p.board h6 hb, rfl⟩

/-- Witness of C8: the second fields "b", "W", "ww" and the empty string all give black,
and "w" gives white. -/
theorem C8_side_to_move_witness :
    (∃ p, parseFenString (utf16 "8/8/8/8/8/8/8/8 b - - 0 1") = .ok p ∧
      p.toMove = utf16 "black") ∧
    (∃ p, parseFenString (utf16 "8/8/8/8/8/8/8/8 W - - 0 1") = .ok p ∧
      p.toMove = utf16 "black") ∧
    (∃ p, parseFenString (utf16 "8/8/8/8/8/8/8/8 ww - - 0 1") = .ok p ∧
      p.toMove = utf16 "black") ∧
    (∃ p, parseFenString (utf16 "8/8/8/8/8/8/8/8  - - 0 1") = .ok p ∧
      p.toMove = utf16 "black") ∧
    (∃ p, parseFenString (utf16 "8/8/8/8/8/8/8/8 w - - 0 1") = .ok p ∧
      p.toMove = utf16 "white") :=
  have hb : parseBoard (utf16 "8/8/8/8/8/8/8/8") =
      .ok (List.replicate 8 (List.replicate 8 32)) := by decide
  ⟨⟨_, parseFenString_board_ok _ _ (by decide) hb,
      (C8_side_to_move (utf16 "8/8/8/8/8/8/8/8 b - - 0 1") _
        (parseFenString_board_ok _ _ (by decide) hb)).2.1 (by decide)⟩,
   ⟨_, parseFenString_board_ok _ _ (by decide) hb,
      (C8_side_to_move (utf16 "8/8/8/8/8/8/8/8 W - - 0 1") _
        (parseFenString_board_ok _ _ (by decide) hb)).2.1 (by decide)⟩,
   ⟨_, parseFenString_board_ok _ _ (by decide) hb,
      (C8_side_to_move (utf16 "8/8/8/8/8/8/8/8 ww - - 0 1") _
        (parseFenString_board_ok _ _ (by decide) hb)).2.1 (by decide)⟩,
   ⟨_, parseFenString_board_ok _ _ (by decide) hb,
      (C8_side_to_move (utf16 "8/8/8/8/8/8/8/8  - - 0 1") _
        (parseFenString_board_ok _ _ (by decide) hb)).2.1 (by decide)⟩,
   ⟨_, parseFenString_board_ok _ _ (by decide) hb,
      (C8_side_to_move (utf16 "8/8/8/8/8/8/8/8 w - - 0 1") _
        (parseFenString_board_ok _ _ (by decide) hb)).1.2 (by decide)⟩⟩

/-- C9: the standard starting position is parsed with side to move white, all four
castling rights true, en passant square "-", halfmove clock 0 and fullmove number 1, and
`fenToAscii` prints the black pieces on the rows labelled 8 and 7, the white pieces on the
rows labelled 2 and 1, and only dots on the four rows between. -/
theorem C9_starting_position :
    parseFenString (utf16 "rnbqkbnr/pppppppp/8/8/8/8/PPPPPPPP/RNBQKBNR w KQkq - 0 1") =
      .ok
        { board :=
            [utf16 "rnbqkbnr", utf16 "pppppppp", utf16 "        ", utf16 "        ",
              utf16 "        ", utf16 "        ", utf16 "PPPPPPPP", utf16 "RNBQKBNR"]
          toMove := utf16 "white"
          castlingRights :=
            { white := { queenside := true, kingside := true }
              black := { queenside := true, kingside := true } }
          enPassantSquare := utf16 "-"
          halfMoves := JSNumber.integer false 0
          fullMoves := JSNumber.integer false 1 } ∧
    ∃ out,
      fenToAscii (utf16 "rnbqkbnr/pppppppp/8/8/8/8/PPPPPPPP/RNBQKBNR w KQkq - 0 1") =
        .ok out ∧
      ((split 10 out).drop 4).take 10 =
        [utf16 "  a b c d e f g h",
         utf16 "8 ♜ ♞ ♝ ♛ ♚ ♝ ♞ ♜ 8",
         utf16 "7 ♟ ♟ ♟ ♟ ♟ ♟ ♟ ♟ 7",
         utf16 "6 . . . . . . . . 6",
         utf16 "5 . . . . . . . . 5",
         utf16 "4 . . . . . . . . 4",
         utf16 "3 . . . . . . . . 3",
         utf16 "2 ♙ ♙ ♙ ♙ ♙ ♙ ♙ ♙ 2",
         utf16 "1 ♖ ♘ ♗ ♕ ♔ ♗ ♘ ♖ 1",
         utf16 "  a b c d e f g h"] ∧
      out =
        utf16 ("Fen \x7b\n  rows: 8,\n  columns: 8,\n  board: [\n" ++
          "  a b c d e f g h\n" ++
          "8 ♜ ♞ ♝ ♛ ♚ ♝ ♞ ♜ 8\n" ++
          "7 ♟ ♟ ♟ ♟ ♟ ♟ ♟ ♟ 7\n" ++
          "6 . . . . . . . . 6\n" ++
          "5 . . . . . . . . 5\n" ++
          "4 . . . . . . . . 4\n" ++
          "3 . . . . . . . . 3\n" ++
          "2 ♙ ♙ ♙ ♙ ♙ ♙ ♙ ♙ 2\n" ++
          "1 ♖ ♘ ♗ ♕ ♔ ♗ ♘ ♖ 1\n" ++
          "  a b c d e f g h\n" ++
          "  ],\n  toMove: 'white',\n  castlingRights: \x7b\n" ++
          "    white: \x7b queenside: true, kingside: true \x7d,\n" ++
          "    black: \x7b queenside: true, kingside: true \x7d\n" ++
          "  \x7d,\n  enPassantSquare: '-',\n  halfMoves: 0,\n  fullMoves: 1\n\x7d") := by
  refine ⟨by decide, _, rfl, by decide, by decide⟩

/-- C10: for a position whose board is 8 ranks of 8 squares over the empty value and the
12 piece letters, the output of `renderBoard` is the opening text, then the grid of the
specification (header line, the 8 lines in board order with labels 8 down to 1 and the
columns 0 to 7 from left to right, header line again), then "  ]," and the metadata;
an empty square shows as "." and a piece as its glyph of the fixed table. -/
theorem C10_grid_layout (parsedFen : ParsedFen) (hv : validBoard parsedFen.board) :
    ∃ post,
      renderBoard parsedFen =
        .ok (utf16 "Fen \x7b\n  rows: 8,\n  columns: 8,\n  board: [\n" ++
          gridSpec parsedFen.board ++ utf16 "  ],\n" ++ post) := by
  refine ⟨metadataOf parsedFen, ?_⟩
  rw [renderBoard_of_rows parsedFen (by rw [hv.1]), gridSpec]
  rw [flatMap_congr_mem (List.range 8) _ (gridLineSpec parsedFen.board)
    fun row hrow => lineOf_eq_gridLineSpec parsedFen.board hv row (List.mem_range.mp hrow)]

/-- Witness of C10: a position after 1. e4 c5 2. Nf3; its board is valid (a rank of 7
squares would not be), its grid in the words of the specification is the expected text, and `renderBoard` prints that grid. -/
theorem C10_grid_layout_witness :
    ¬ validBoard
        [utf16 "rnbqkbnr", utf16 "pp pppp", utf16 "        ", utf16 "  p     ",
          utf16 "    P   ", utf16 "     N  ", utf16 "PPPP PPP", utf16 "RNBQKB R"] ∧
    validBoard
        [utf16 "rnbqkbnr", utf16 "pp ppppp", utf16 "        ", utf16 "  p     ",
          utf16 "    P   ", utf16 "     N  ", utf16 "PPPP PPP", utf16 "RNBQKB R"] ∧
    gridSpec
        [utf16 "rnbqkbnr", utf16 "pp ppppp", utf16 "        ", utf16 "  p     ",
          utf16 "    P   ", utf16 "     N  ", utf16 "PPPP PPP", utf16 "RNBQKB R"] =
      utf16 ("  a b c d e f g h\n" ++
        "8 ♜ ♞ ♝ ♛ ♚ ♝ ♞ ♜ 8\n" ++
        "7 ♟ ♟ . ♟ ♟ ♟ ♟ ♟ 7\n" ++
        "6 . . . . . . . . 6\n" ++
        "5 . . ♟ . . . . . 5\n" ++
        "4 . . . . ♙ . . . 4\n" ++
        "3 . . . . . ♘ . . 3\n" ++
        "2 ♙ ♙ ♙ ♙ . ♙ ♙ ♙ 2\n" ++
        "1 ♖ ♘ ♗ ♕ ♔ ♗ . ♖ 1\n" ++
        "  a b c d e f g h\n") ∧
    ∃ post,
      renderBoard
          { board :=
              [utf16 "rnbqkbnr", utf16 "pp ppppp", utf16 "        ", utf16 "  p     ",
                utf16 "    P   ", utf16 "     N  ", utf16 "PPPP PPP", utf16 "RNBQKB R"]
            toMove := utf16 "black"
            castlingRights :=
              { white := { queenside := true, kingside := true }
                black := { queenside := true, kingside := true } }
            enPassantSquare := utf16 "-"
            halfMoves := JSNumber.integer false 1
            fullMoves := JSNumber.integer false 2 } =
        .ok (utf16 "Fen \x7b\n  rows: 8,\n  columns: 8,\n  board: [\n" ++
          gridSpec
            [utf16 "rnbqkbnr", utf16 "pp ppppp", utf16 "        ", utf16 "  p     ",
              utf16 "    P   ", utf16 "     N  ", utf16 "PPPP PPP", utf16 "RNBQKB R"] ++
          utf16 "  ],\n" ++ post) :=
  ⟨by decide, by decide, by decide,
   C10_grid_layout
     { board :=
         [utf16 "rnbqkbnr", utf16 "pp ppppp", utf16 "        ", utf16 "  p     ",
           utf16 "    P   ", utf16 "     N  ", utf16 "PPPP PPP", utf16 "RNBQKB R"]
       toMove := utf16 "black"
       castlingRights :=
         { white := { queenside := true, kingside := true }
           black := { queenside := true, kingside := true } }
       enPassantSquare := utf16 "-"
       halfMoves := JSNumber.integer false 1
       fullMoves := JSNumber.integer false 2 }
     (by decide)⟩

/-- C11: on a position whose board has exactly 8 ranks of exactly 8 squares, every access
`board[row][col]` with `row` and `col` from 0 to 7 is in range and `renderBoard` returns a
string; consequently `renderBoard` returns a string on every position `parseFenString`
produces. -/
theorem C11_rendering_cannot_fail (parsedFen : ParsedFen)
    (h8 : parsedFen.board.length = 8)
    (hr : ∀ rank ∈ parsedFen.board, rank.length = 8) :
    (∀ row col, row < 8 → col < 8 →
      ∃ rank sq, parsedFen.board.get? row = some rank ∧ rank.get? col = some sq) ∧
    (∃ out, renderBoard parsedFen = .ok out) ∧
    ∀ fen p, parseFenString fen = .ok p → ∃ out, renderBoard p = .ok out := by
  refine ⟨?_, renderBoard_ok parsedFen h8, ?_⟩
  · intro row col hrow hcol
    have hlt : row < parsedFen.board.length := by rw [h8]; exact hrow
    have hmem : parsedFen.board.getD row [] ∈ parsedFen.board := by
      rw [List.getD_eq_getElem _ _ hlt]
      exact List.getElem_mem _
    have hc : col < (parsedFen.board.getD row []).length := by
      rw [hr _ hmem]; exact hcol
    exact ⟨_, _, get?_eq_some_getD _ row [] hlt, get?_eq_some_getD _ col 32 hc⟩
  · intro fen p hp
    exact renderBoard_ok p (parseFenString_shape fen p hp).1

/-- Witness of C11: a board of 8 ranks of 8 squares (here with squares outside the
alphabet) is rendered. -/
theorem C11_rendering_cannot_fail_witness :
    ∃ out,
      renderBoard
          { board := List.replicate 8 (utf16 "r1?x KQ#")
            toMove := utf16 "white"
            castlingRights :=
              { white := { queenside := false, kingside := false }
                black := { queenside := false, kingside := false } }
            enPassantSquare := utf16 "-"
            halfMoves := JSNumber.integer false 0
            fullMoves := JSNumber.integer false 1 } = .ok out :=
  (C11_rendering_cannot_fail
    { board := List.replicate 8 (utf16 "r1?x KQ#")
      toMove := utf16 "white"
      castlingRights :=
        { white := { queenside := false, kingside := false }
          black := { queenside := false, kingside := false } }
      enPassantSquare := utf16 "-"
      halfMoves := JSNumber.integer false 0
      fullMoves := JSNumber.integer false 1 }
    (by decide) (by decide)).2.1

/-- C13: `fenToAscii` returns what `renderBoard` returns on the parsed position when
`parseFenString` succeeds, and that is a string; when `parseFenString` fails with a
message, `fenToAscii` fails with "Invalid FEN: " followed by that message unchanged, so no
rendering is returned for an input the parser rejects and the offending character, where
there is one, stays in the message. -/
theorem C13_fenToAscii_wraps_parse_errors (s : JSString) :
    (∀ p, parseFenString s = .ok p →
      fenToAscii s = renderBoard p ∧ ∃ out, fenToAscii s = .ok out) ∧
    (∀ e, parseFenString s = .error e →
      fenToAscii s = .error (utf16 "Invalid FEN: " ++ e)) ∧
    fenToAscii (utf16 "8/8/8/8/8/8/8/X7 w - - 0 1") =
      .error (utf16 "Invalid FEN: Invalid character in board: X") ∧
    fenToAscii (utf16 "8/8/8/8/8/8/8/8 w - -") =
      .error (utf16 "Invalid FEN: FEN must have exactly 6 fields") := by
  refine ⟨?_, fenToAscii_of_error s, by decide, by decide⟩
  intro p hp
  obtain ⟨out, hout⟩ := renderBoard_ok p (parseFenString_shape s p hp).1
  rw [fenToAscii_of_ok s p out hp hout, hout]
  exact ⟨rfl, out, rfl⟩

/-- C18: when `parseFenString` succeeds, the en passant square of the position is the
fourth space-separated field of the trimmed input, character for character; the field
never makes the parse fail: every 6-field input with the same first field is parsed, and
its en passant square is its fourth field. -/
theorem C18_en_passant_verbatim (fen : JSString) (p : ParsedFen)
    (h : parseFenString fen = .ok p) :
    p.enPassantSquare = (split 32 (trim fen)).getD 3 [] ∧
    ∀ fen', (split 32 (trim fen')).length = 6 →
      (split 32 (trim fen')).getD 0 [] = (split 32 (trim fen)).getD 0 [] →
      ∃ p', parseFenString fen' = .ok p' ∧
        p'.enPassantSquare = (split 32 (trim fen')).getD 3 [] := by
  obtain ⟨_, hb, _, _, hep, _⟩ := parseFenString_ok_inv fen p h
  refine ⟨hep, ?_⟩
  intro fen' h6 h0
  rw [← h0] at hb
  exact ⟨_, parseFenString_board_ok fen' p.board h6 hb, rfl⟩

/-- Witness of C18: a fourth field that names no square is kept as it is. -/
theorem C18_en_passant_verbatim_witness :
    ∃ p, parseFenString (utf16 "8/8/8/8/8/8/8/8 w - z9/?! 0 1") = .ok p ∧
      p.enPassantSquare = utf16 "z9/?!" :=
  have hb : parseBoard (utf16 "8/8/8/8/8/8/8/8") =
      .ok (List.replicate 8 (List.replicate 8 32)) := by decide
  ⟨_, parseFenString_board_ok _ _ (by decide) hb,
    (C18_en_passant_verbatim (utf16 "8/8/8/8/8/8/8/8 w - z9/?! 0 1") _
      (parseFenString_board_ok _ _ (by decide) hb)).1.trans (by decide)⟩

/-- C17: white space around the input is removed before the fields are split and has no
other effect: for every string `s` and all strings `l` and `r` of white-space characters
only, `parseFenString (l + s + r)` is the result of `parseFenString s`, the same position
or the same error. -/
theorem C17_surrounding_whitespace_is_ignored (s l r : JSString)
    (hl : ∀ x ∈ l, isWhiteSpace x = true) (hr : ∀ x ∈ r, isWhiteSpace x = true) :
    parseFenString (l ++ s ++ r) = parseFenString s :=
  parseFenString_congr_trim _ _ (trim_pad l s r hl hr)

/-- Witness of C17: spaces, a tab and line ends around a position, and around a string the
parser rejects. -/
theorem C17_surrounding_whitespace_is_ignored_witness :
    parseFenString (utf16 " \t\n" ++ utf16 "8/8/8/8/8/8/8/8 b - - 3 7" ++ utf16 "\r\n  ") =
        parseFenString (utf16 "8/8/8/8/8/8/8/8 b - - 3 7") ∧
      parseFenString (utf16 " \t\n" ++ utf16 "8/8/8/8/8/8/8/8 b - - 3 7" ++ utf16 "\r\n  ") =
        .ok
          { board := List.replicate 8 (List.replicate 8 32)
            toMove := utf16 "black"
            castlingRights :=
              { white := { queenside := false, kingside := false }
                black := { queenside := false, kingside := false } }
            enPassantSquare := utf16 "-"
            halfMoves := JSNumber.integer false 3
            fullMoves := JSNumber.integer false 7 } ∧
      parseFenString (utf16 "  " ++ utf16 "8/8 w" ++ utf16 "\n") =
        parseFenString (utf16 "8/8 w") :=
  ⟨C17_surrounding_whitespace_is_ignored (utf16 "8/8/8/8/8/8/8/8 b - - 3 7") (utf16 " \t\n")
      (utf16 "\r\n  ") (by decide) (by decide),
   by decide,
   C17_surrounding_whitespace_is_ignored (utf16 "8/8 w") (utf16 "  ") (utf16 "\n")
      (by decide) (by decide)⟩

/-- C14, as amended: when `parseFenString` succeeds, a fifth field that begins with an
ASCII digit and whose leading digit run has a base-10 value below `2^1023` gives a
halfmove clock that is a non-negative integer, and a sixth field that begins with an
ASCII digit and whose leading digit run has a value that is not zero and is below
`2^1023` gives a fullmove number that is a positive integer. -/
theorem C14_move_counters_of_digit_fields (fen : JSString) (p : ParsedFen)
    (h : parseFenString fen = .ok p) :
    (∀ d rest, (split 32 (trim fen)).getD 4 [] = d :: rest → 48 ≤ d ∧ d ≤ 57 →
      decimalValueSpec (leadingDigits (d :: rest)) < 2 ^ 1023 →
      isNonNegativeInteger p.halfMoves) ∧
    (∀ d rest, (split 32 (trim fen)).getD 5 [] = d :: rest → 48 ≤ d ∧ d ≤ 57 →
      decimalValueSpec (leadingDigits (d :: rest)) < 2 ^ 1023 →
      decimalValueSpec (leadingDigits (d :: rest)) ≠ 0 →
      isPositiveInteger p.fullMoves) := by
  obtain ⟨_, _, _, _, _, hhalf, hfull⟩ := parseFenString_ok_inv fen p h
  constructor
  · intro d rest h5 hd hv
    obtain ⟨m, hm, _⟩ := parseInt_digit_start_integer d rest hd hv
    rw [hhalf, h5, hm]
    exact Or.inl rfl
  · intro d rest h6 hd hv hne
    obtain ⟨m, hm, hpos⟩ := parseInt_digit_start_integer d rest hd hv
    rw [hfull, h6, hm]
    exact ⟨rfl, hpos hne⟩

/-- Witness of C14: the fields "50" and "12abc" give the clock 50 and the move number 12. -/
theorem C14_move_counters_of_digit_fields_witness :
    ∃ p, parseFenString (utf16 "8/8/8/8/8/8/8/8 w - - 50 12abc") = .ok p ∧
      isNonNegativeInteger p.halfMoves ∧ isPositiveInteger p.fullMoves ∧
      p.halfMoves = JSNumber.integer false 50 ∧ p.fullMoves = JSNumber.integer false 12 :=
  have hb : parseBoard (utf16 "8/8/8/8/8/8/8/8") =
      .ok (List.replicate 8 (List.replicate 8 32)) := by decide
  have hp := parseFenString_board_ok (utf16 "8/8/8/8/8/8/8/8 w - - 50 12abc") _ (by decide) hb
  have hc := C14_move_counters_of_digit_fields _ _ hp
  ⟨_, hp,
    hc.1 53 (utf16 "0") (by decide) (by decide)
      (lt_of_lt_of_le
        (by decide : decimalValueSpec (leadingDigits (53 :: utf16 "0")) < 2 ^ 10)
        (Nat.pow_le_pow_right (Nat.le_succ 1) (Nat.le_add_left 10 1013))),
    hc.2 49 (utf16 "2abc") (by decide) (by decide)
      (lt_of_lt_of_le
        (by decide : decimalValueSpec (leadingDigits (49 :: utf16 "2abc")) < 2 ^ 10)
        (Nat.pow_le_pow_right (Nat.le_succ 1) (Nat.le_add_left 10 1013)))
      (by decide),
    by decide, by decide⟩

/-- Counterexample to C14 as stated: inputs on which `parseFenString` succeeds although
the halfmove clock is no non-negative integer and the fullmove number no positive
integer: the fields "x" and "-3" give `NaN` and -3, the fields "-7" and "0" give -7 and
0, and two runs of 310 digits give `Infinity` twice. -/
theorem C14_counterexample :
    (∃ p, parseFenString (utf16 "8/8/8/8/8/8/8/8 w - - x -3") = .ok p ∧
      p.halfMoves = JSNumber.nan ∧ p.fullMoves = JSNumber.integer true 3 ∧
      ¬ isNonNegativeInteger p.halfMoves ∧ ¬ isPositiveInteger p.fullMoves) ∧
    (∃ p, parseFenString (utf16 "8/8/8/8/8/8/8/8 w - - -7 0") = .ok p ∧
      p.halfMoves = JSNumber.integer true 7 ∧ p.fullMoves = JSNumber.integer false 0 ∧
      ¬ isNonNegativeInteger p.halfMoves ∧ ¬ isPositiveInteger p.fullMoves) ∧
    (∃ p,
      parseFenString
          (utf16 "8/8/8/8/8/8/8/8 w - - " ++ List.replicate 310 57 ++ utf16 " " ++
            List.replicate 310 57) = .ok p ∧
      p.halfMoves = JSNumber.infinity false ∧ p.fullMoves = JSNumber.infinity false ∧
      ¬ isNonNegativeInteger p.halfMoves ∧ ¬ isPositiveInteger p.fullMoves) := by
  have hb : parseBoard (utf16 "8/8/8/8/8/8/8/8") =
      .ok (List.replicate 8 (List.replicate 8 32)) := by decide
  refine ⟨⟨_, parseFenString_board_ok _ _ (by decide) hb, ?_, ?_, ?_, ?_⟩,
    ⟨_, parseFenString_board_ok _ _ (by decide) hb, ?_, ?_, ?_, ?_⟩,
    ⟨_, parseFenString_board_ok _ _ (by decide) hb, ?_, ?_, ?_, ?_⟩⟩ <;> decide

/-- C15, as amended: when `parseFenString` succeeds and the fifth and sixth fields are
non-empty strings of ASCII decimal digits whose base-10 values are below `2^53`, the
halfmove clock and the fullmove number are those values (leading zeros allowed, no other
radix). -/
theorem C15_move_counters_are_base_10 (fen : JSString) (p : ParsedFen)
    (h : parseFenString fen = .ok p)
    (h5 : isDigitString ((split 32 (trim fen)).getD 4 []))
    (h6 : isDigitString ((split 32 (trim fen)).getD 5 []))
    (hv5 : decimalValueSpec ((split 32 (trim fen)).getD 4 []) < 2 ^ 53)
    (hv6 : decimalValueSpec ((split 32 (trim fen)).getD 5 []) < 2 ^ 53) :
    p.halfMoves = JSNumber.integer false (decimalValueSpec ((split 32 (trim fen)).getD 4 [])) ∧
    p.fullMoves =
      JSNumber.integer false (decimalValueSpec ((split 32 (trim fen)).getD 5 [])) := by
  obtain ⟨_, _, _, _, _, hhalf, hfull⟩ := parseFenString_ok_inv fen p h
  rw [hhalf, hfull, parseInt_digitString_small _ h5 hv5, parseInt_digitString_small _ h6 hv6]
  exact ⟨rfl, rfl⟩

/-- Witness of C15: the fields "007" and "0123" give 7 and 123. -/
theorem C15_move_counters_are_base_10_witness :
    ∃ p, parseFenString (utf16 "8/8/8/8/8/8/8/8 w - - 007 0123") = .ok p ∧
      p.halfMoves = JSNumber.integer false 7 ∧ p.fullMoves = JSNumber.integer false 123 :=
  have hb : parseBoard (utf16 "8/8/8/8/8/8/8/8") =
      .ok (List.replicate 8 (List.replicate 8 32)) := by decide
  have hp := parseFenString_board_ok (utf16 "8/8/8/8/8/8/8/8 w - - 007 0123") _ (by decide) hb
  have hc := C15_move_counters_are_base_10 _ _ hp (by decide) (by decide)
    (by decide) (by decide)
  ⟨_, hp, hc.1.trans (by decide), hc.2.trans (by decide)⟩

/-- Counterexample to C15 as stated: the fifth field "9007199254740993" is a string of
digits with the base-10 value `2^53 + 1`, and the halfmove clock of the parsed position is
`2^53`. -/
theorem C15_counterexample :
    ∃ p, parseFenString (utf16 "8/8/8/8/8/8/8/8 w - - 9007199254740993 1") = .ok p ∧
      (split 32 (trim (utf16 "8/8/8/8/8/8/8/8 w - - 9007199254740993 1"))).getD 4 [] =
        utf16 "9007199254740993" ∧
      (split 32 (trim (utf16 "8/8/8/8/8/8/8/8 w - - 9007199254740993 1"))).getD 5 [] =
        utf16 "1" ∧
      isDigitString (utf16 "9007199254740993") ∧
      isDigitString (utf16 "1") ∧
      decimalValueSpec (utf16 "9007199254740993") = 9007199254740993 ∧
      p.halfMoves = JSNumber.integer false 9007199254740992 ∧
      p.halfMoves ≠ JSNumber.integer false (decimalValueSpec (utf16 "9007199254740993")) := by
  have hb : parseBoard (utf16 "8/8/8/8/8/8/8/8") =
      .ok (List.replicate 8 (List.replicate 8 32)) := by decide
  refine ⟨_, parseFenString_board_ok _ _ (by decide) hb, ?_, ?_, ?_, ?_, ?_, ?_, ?_⟩ <;> decide

/-- C16, as amended: an input whose trimmed form, split on single space characters, does
not give exactly 6 tokens (fewer or more) makes `parseFenString` fail, whatever the
fields hold. -/
theorem C16_token_count_other_than_six_fails (fen : JSString)
    (h : (split 32 (trim fen)).length ≠ 6) :
    (∃ e, parseFenString fen = .error e) ∧ ∀ p, parseFenString fen ≠ .ok p := by
  rw [parseFenString_not_six fen h]
  exact ⟨⟨_, rfl⟩, fun p hp => by cases hp⟩

/-- Witness of C16: five tokens and seven tokens. -/
theorem C16_token_count_other_than_six_fails_witness :
    (∃ e, parseFenString (utf16 "8/8/8/8/8/8/8/8 w - - 0") = .error e) ∧
      (∃ e, parseFenString (utf16 "8/8/8/8/8/8/8/8 w KQkq - 0 1 x") = .error e) :=
  ⟨(C16_token_count_other_than_six_fails (utf16 "8/8/8/8/8/8/8/8 w - - 0") (by decide)).1,
   (C16_token_count_other_than_six_fails (utf16 "8/8/8/8/8/8/8/8 w KQkq - 0 1 x")
      (by decide)).1⟩

/-- Counterexample to C16 as stated: "8/8/8/8/8/8/8/8 w  - 0 1" has 5
white-space-separated fields and "8/8/8/8/8/8/8/8 w - - 0 1", a tab, "x" has 7, and
`parseFenString` succeeds on both. -/
theorem C16_counterexample :
    ((whitespaceFields (utf16 "8/8/8/8/8/8/8/8 w  - 0 1")).length = 5 ∧
      ∃ p, parseFenString (utf16 "8/8/8/8/8/8/8/8 w  - 0 1") = .ok p) ∧
    ((whitespaceFields (utf16 "8/8/8/8/8/8/8/8 w - - 0 1\tx")).length = 7 ∧
      ∃ p, parseFenString (utf16 "8/8/8/8/8/8/8/8 w - - 0 1\tx") = .ok p) := by
  have hb : parseBoard (utf16 "8/8/8/8/8/8/8/8") =
      .ok (List.replicate 8 (List.replicate 8 32)) := by decide
  exact ⟨⟨by decide, _, parseFenString_board_ok _ _ (by decide) hb⟩,
    ⟨by decide, _, parseFenString_board_ok _ _ (by decide) hb⟩⟩

/-- C19: `parseFenString` succeeds if and only if (1) the trimmed input split on single
spaces has exactly 6 tokens, (2) the first token split on "/" has exactly 8 rank strings,
(3) every character of every rank string is an ASCII digit 0-9 or one of the 12 piece
letters, and (4) in every rank string the sum of the digit values plus the number of piece
letters is exactly 8; the fields 2 to 6 play no part.  The ranks "08" and "p07" are
accepted, and a 9 is rejected only through the rank-width check. -/
theorem C19_exact_acceptance_condition (fen : JSString) :
    ((∃ p, parseFenString fen = .ok p) ↔
      (split 32 (trim fen)).length = 6 ∧
      (split 47 ((split 32 (trim fen)).getD 0 [])).length = 8 ∧
      (∀ rank ∈ split 47 ((split 32 (trim fen)).getD 0 []),
        ∀ c ∈ rank, (48 ≤ c ∧ c ≤ 57) ∨ c ∈ utf16 "pnbrqkPNBRQK") ∧
      (∀ rank ∈ split 47 ((split 32 (trim fen)).getD 0 []), rankWidthSpec rank = 8)) ∧
    (∃ p, parseFenString (utf16 "08/p07/8/8/8/8/8/8 w - - 0 1") = .ok p ∧
      p.board.getD 0 [] = utf16 "        " ∧ p.board.getD 1 [] = utf16 "p       ") ∧
    parseFenString (utf16 "9/8/8/8/8/8/8/8 w - - 0 1") =
      .error (utf16 "Each row must have exactly 8 squares") ∧
    parseFenString (utf16 "p9/8/8/8/8/8/8/8 ? ? ? ? ?") =
      .error (utf16 "Each row must have exactly 8 squares") := by
  refine ⟨?_, ?_, by decide, by decide⟩
  · rw [parseFenString_ok_iff]
    constructor
    · rintro ⟨h6, h8, hgood⟩
      refine ⟨h6, h8, fun rank hr => (hgood rank hr).1, fun rank hr => ?_⟩
      rw [← length_flatMap_expandSpec]
      exact (hgood rank hr).2
    · rintro ⟨h6, h8, hchars, hwidth⟩
      refine ⟨h6, h8, fun rank hr => ⟨hchars rank hr, ?_⟩⟩
      rw [length_flatMap_expandSpec]
      exact hwidth rank hr
  · have hb : parseBoard (utf16 "08/p07/8/8/8/8/8/8") =
        .ok (utf16 "        " :: utf16 "p       " ::
          List.replicate 6 (List.replicate 8 32)) := by decide
    exact ⟨_, parseFenString_board_ok _ _ (by decide) hb, by decide, by decide⟩

/-- C12: for a valid position the output of `renderBoard` contains the header
"a b c d e f g h" and, after the grid and "  ],", a dump of the position in this order:
the side to move between single quotes, the four castling booleans (white queenside,
white kingside, black queenside, black kingside) printed as true or false, the en passant
token unchanged between single quotes, the halfmove clock and the fullmove number (a
non-negative integer below `2^53` as its decimal numeral).  For a position parsed from a
FEN the side to move is white or black and each castling boolean is true exactly when its
letter occurs in the castling field. -/
theorem C12_metadata_dump (parsedFen : ParsedFen) (hv : validBoard parsedFen.board) :
    renderBoard parsedFen =
      .ok (utf16 "Fen \x7b\n  rows: 8,\n  columns: 8,\n  board: [\n" ++
        gridSpec parsedFen.board ++ utf16 "  ],\n" ++
        (utf16 "  toMove: '" ++ parsedFen.toMove ++ utf16 "',\n" ++
         utf16 "  castlingRights: \x7b\n" ++
         utf16 "    white: \x7b queenside: " ++
           boolToString parsedFen.castlingRights.white.queenside ++
           utf16 ", kingside: " ++
           boolToString parsedFen.castlingRights.white.kingside ++ utf16 " \x7d,\n" ++
         utf16 "    black: \x7b queenside: " ++
           boolToString parsedFen.castlingRights.black.queenside ++
           utf16 ", kingside: " ++
           boolToString parsedFen.castlingRights.black.kingside ++ utf16 " \x7d\n" ++
         utf16 "  \x7d,\n" ++
         utf16 "  enPassantSquare: '" ++ parsedFen.enPassantSquare ++ utf16 "',\n" ++
         utf16 "  halfMoves: " ++ numberToString parsedFen.halfMoves ++ utf16 ",\n" ++
         utf16 "  fullMoves: " ++ numberToString parsedFen.fullMoves ++ utf16 "\n" ++
         utf16 "\x7d")) ∧
    (∃ a b, renderBoard parsedFen = .ok (a ++ utf16 "a b c d e f g h" ++ b)) ∧
    boolToString true = utf16 "true" ∧ boolToString false = utf16 "false" ∧
    (∀ n, n < 2 ^ 53 →
      numberToString (JSNumber.integer false n) = decimalNumeralSpec n) ∧
    ∀ fen p, parseFenString fen = .ok p →
      (p.toMove = utf16 "white" ∨ p.toMove = utf16 "black") ∧
      (p.castlingRights.white.queenside = true ↔
        ∃ a b, (split 32 (trim fen)).getD 2 [] = a ++ utf16 "Q" ++ b) ∧
      (p.castlingRights.white.kingside = true ↔
        ∃ a b, (split 32 (trim fen)).getD 2 [] = a ++ utf16 "K" ++ b) ∧
      (p.castlingRights.black.queenside = true ↔
        ∃ a b, (split 32 (trim fen)).getD 2 [] = a ++ utf16 "q" ++ b) ∧
      (p.castlingRights.black.kingside = true ↔
        ∃ a b, (split 32 (trim fen)).getD 2 [] = a ++ utf16 "k" ++ b) := by
  refine ⟨?_, ?_, rfl, rfl, numberToString_small, ?_⟩
  · rw [renderBoard_valid parsedFen hv]
    rfl
  · rw [renderBoard_valid parsedFen hv, gridSpec]
    have hhead : utf16 "  a b c d e f g h\n" =
        utf16 "  " ++ (utf16 "a b c d e f g h" ++ utf16 "\n") := by decide
    refine ⟨utf16 "Fen \x7b\n  rows: 8,\n  columns: 8,\n  board: [\n" ++ utf16 "  ",
      utf16 "\n" ++ ((List.range 8).flatMap (gridLineSpec parsedFen.board) ++
        (utf16 "  a b c d e f g h\n" ++ (utf16 "  ],\n" ++ metadataOf parsedFen))), ?_⟩
    rw [hhead]
    simp only [List.append_assoc]
  · intro fen p hp
    obtain ⟨_, _, hmove, hcastle, _⟩ := parseFenString_ok_inv fen p hp
    refine ⟨?_, ?_, ?_, ?_, ?_⟩
    · rw [hmove]
      by_cases hw : (split 32 (trim fen)).getD 1 [] = utf16 "w"
      · rw [if_pos hw]
        exact Or.inl rfl
      · rw [if_neg hw]
        exact Or.inr rfl
    · rw [hcastle]
      exact includes_singleton_iff_append _ 81
    · rw [hcastle]
      exact includes_singleton_iff_append _ 75
    · rw [hcastle]
      exact includes_singleton_iff_append _ 113
    · rw [hcastle]
      exact includes_singleton_iff_append _ 107

/-- Witness of C12: the dump of the position after 1. e4, parsed from its FEN. -/
theorem C12_metadata_dump_witness :
    renderBoard
        { board :=
            [utf16 "rnbqkbnr", utf16 "pppppppp", utf16 "        ", utf16 "        ",
              utf16 "    P   ", utf16 "        ", utf16 "PPPP PPP", utf16 "RNBQKBNR"]
          toMove := utf16 "black"
          castlingRights :=
            { white := { queenside := true, kingside := false }
              black := { queenside := false, kingside := true } }
          enPassantSquare := utf16 "e3"
          halfMoves := JSNumber.integer false 0
          fullMoves := JSNumber.integer false 1 } =
      .ok (utf16 "Fen \x7b\n  rows: 8,\n  columns: 8,\n  board: [\n" ++
        gridSpec
          [utf16 "rnbqkbnr", utf16 "pppppppp", utf16 "        ", utf16 "        ",
            utf16 "    P   ", utf16 "        ", utf16 "PPPP PPP", utf16 "RNBQKBNR"] ++
        utf16 "  ],\n" ++
        utf16 ("  toMove: 'black',\n  castlingRights: \x7b\n" ++
          "    white: \x7b queenside: true, kingside: false \x7d,\n" ++
          "    black: \x7b queenside: false, kingside: true \x7d\n" ++
          "  \x7d,\n  enPassantSquare: 'e3',\n  halfMoves: 0,\n  fullMoves: 1\n\x7d")) ∧
    parseFenString (utf16 "rnbqkbnr/pppppppp/8/8/4P3/8/PPPP1PPP/RNBQKBNR b Qk e3 0 1") =
      .ok
        { board :=
            [utf16 "rnbqkbnr", utf16 "pppppppp", utf16 "        ", utf16 "        ",
              utf16 "    P   ", utf16 "        ", utf16 "PPPP PPP", utf16 "RNBQKBNR"]
          toMove := utf16 "black"
          castlingRights :=
            { white := { queenside := true, kingside := false }
              black := { queenside := false, kingside := true } }
          enPassantSquare := utf16 "e3"
          halfMoves := JSNumber.integer false 0
          fullMoves := JSNumber.integer false 1 } :=
  ⟨(C12_metadata_dump
      { board :=
          [utf16 "rnbqkbnr", utf16 "pppppppp", utf16 "        ", utf16 "        ",
            utf16 "    P   ", utf16 "        ", utf16 "PPPP PPP", utf16 "RNBQKBNR"]
        toMove := utf16 "black"
        castlingRights :=
          { white := { queenside := true, kingside := false }
            black := { queenside := false, kingside := true } }
        enPassantSquare := utf16 "e3"
        halfMoves := JSNumber.integer false 0
        fullMoves := JSNumber.integer false 1 }
      (by decide)).1.trans (by decide),
   by decide⟩

/-- C20: `pieceToUnicode` gives the 12 piece letters 12 pairwise distinct glyphs, none of
them the placeholder "."; and two valid positions with the same output of `renderBoard`
have the same board, square for square. -/
theorem C20_rendering_determines_the_board (p q : ParsedFen)
    (hp : validBoard p.board) (hq : validBoard q.board)
    (h : renderBoard p = renderBoard q) :
    ((utf16 "pnbrqkPNBRQK").map pieceToUnicode).Nodup ∧
    ((utf16 "pnbrqkPNBRQK").map pieceToUnicode).length = 12 ∧
    (∀ c ∈ utf16 "pnbrqkPNBRQK", pieceToUnicode c ≠ utf16 ".") ∧
    p.board = q.board ∧
    ∀ i j, (p.board.getD i []).getD j 32 = (q.board.getD i []).getD j 32 := by
  have hb := board_eq_of_renderBoard_eq p q hp hq h
  refine ⟨by decide, by decide, by decide, hb, fun i j => by rw [hb]⟩

/-- Witness of C20: two positions that differ only in the sign of a zero halfmove clock
have the same rendering, and their boards are equal. -/
theorem C20_rendering_determines_the_board_witness :
    ({ board := List.replicate 8 (utf16 "k  Q  p ")
       toMove := utf16 "white"
       castlingRights :=
         { white := { queenside := false, kingside := false }
           black := { queenside := false, kingside := false } }
       enPassantSquare := utf16 "-"
       halfMoves := JSNumber.integer true 0
       fullMoves := JSNumber.integer false 1 } : ParsedFen).board =
      ({ board := List.replicate 8 (utf16 "k  Q  p ")
         toMove := utf16 "white"
         castlingRights :=
           { white := { queenside := false, kingside := false }
             black := { queenside := false, kingside := false } }
         enPassantSquare := utf16 "-"
         halfMoves := JSNumber.integer false 0
         fullMoves := JSNumber.integer false 1 } : ParsedFen).board :=
  (C20_rendering_determines_the_board
    { board := List.replicate 8 (utf16 "k  Q  p ")
      toMove := utf16 "white"
      castlingRights :=
        { white := { queenside := false, kingside := false }
          black := { queenside := false, kingside := false } }
      enPassantSquare := utf16 "-"
      halfMoves := JSNumber.integer true 0
      fullMoves := JSNumber.integer false 1 }
    { board := List.replicate 8 (utf16 "k  Q  p ")
      toMove := utf16 "white"
      castlingRights :=
        { white := { queenside := false, kingside := false }
          black := { queenside := false, kingside := false } }
      enPassantSquare := utf16 "-"
      halfMoves := JSNumber.integer false 0
      fullMoves := JSNumber.integer false 1 }
    (by decide) (by decide) (by decide)).2.2.2.1

end ChessFEN
